import Mathlib

/-!
Shallow embedding of the SafeQR phishing-link heuristic classifier
(`safeqr/security.py` and `safeqr/utils/validators.py`) together with the
parts of the Python 3.11 standard library those modules call
(`urllib.parse.urlsplit/urlunsplit/quote/unquote/parse_qsl`,
`ipaddress.ip_address`, `difflib.SequenceMatcher.ratio`, and the
`encodings.idna` / `encodings.punycode` codecs).

Python strings are modelled as lists of Unicode code points (`List Nat`);
Python `bytes` as lists of byte values.  Python exceptions that the
repository code lets escape are modelled with `Except`; exceptions that the
repository catches are internal `Option`/fallbacks.  Floating-point
similarity ratios are modelled as exact rationals (`ℚ`); for the thresholds
0.82, 0.85 and 1 used by the code, double rounding and exact arithmetic
agree on every ratio whose denominator is a realistic string length.

Unicode tables that the standard library consults (`str.lower`,
`str.isspace`, NFKC) are embedded restricted to the character ranges this
repository manipulates (ASCII, Latin-1, Greek, Cyrillic, and the NFKC
expansions relevant to `urllib.parse._checknetloc`); each such definition
documents its restriction.
-/

namespace SafeQR

/-- Python strings as sequences of Unicode code points. -/
abbrev PyStr := List Nat

/-- Embed a Lean string literal as a Python string (list of code points). -/
def pyStr (s : String) : PyStr := s.data.map Char.toNat

/-- ASCII uppercase letter. -/
def isAsciiUpper (c : Nat) : Bool := decide (0x41 ≤ c ∧ c ≤ 0x5A)

/-- ASCII lowercase letter. -/
def isAsciiLower (c : Nat) : Bool := decide (0x61 ≤ c ∧ c ≤ 0x7A)

/-- ASCII letter. -/
def isAsciiAlpha (c : Nat) : Bool := isAsciiUpper c || isAsciiLower c

/-- ASCII decimal digit. -/
def isAsciiDigit (c : Nat) : Bool := decide (0x30 ≤ c ∧ c ≤ 0x39)

/-- ASCII hexadecimal digit (both cases), the set `ipaddress._HEX_DIGITS`. -/
def isHexDigit (c : Nat) : Bool :=
  isAsciiDigit c || decide (0x41 ≤ c ∧ c ≤ 0x46) || decide (0x61 ≤ c ∧ c ≤ 0x66)

/-- Python `str.isspace` code points (the exhaustive set for CPython 3.11). -/
def pyIsSpace (c : Nat) : Bool :=
  decide (9 ≤ c ∧ c ≤ 13) || decide (0x1C ≤ c ∧ c ≤ 0x1F) || c == 0x20 ||
  c == 0x85 || c == 0xA0 || c == 0x1680 || decide (0x2000 ≤ c ∧ c ≤ 0x200A) ||
  c == 0x2028 || c == 0x2029 || c == 0x202F || c == 0x205F || c == 0x3000

/-- Python `str.strip()` with no argument: remove leading and trailing
whitespace code points. -/
def pyStrip (s : PyStr) : PyStr :=
  ((s.dropWhile pyIsSpace).reverse.dropWhile pyIsSpace).reverse

/-- Python `str.lower`, embedded for the scripts this repository manipulates:
ASCII, Latin-1 letters, Greek and Cyrillic; identity on all other code
points.  (CPython's full table and its final-sigma context rule only differ
outside these ranges or in contexts the classifier never produces.) -/
def pyLower1 (c : Nat) : Nat :=
  if isAsciiUpper c then c + 0x20
  else if 0xC0 ≤ c ∧ c ≤ 0xDE ∧ c ≠ 0xD7 then c + 0x20
  else if 0x391 ≤ c ∧ c ≤ 0x3AB ∧ c ≠ 0x3A2 then c + 0x20
  else if 0x400 ≤ c ∧ c ≤ 0x40F then c + 0x50
  else if 0x410 ≤ c ∧ c ≤ 0x42F then c + 0x20
  else c

/-- Lower-case a Python string (see `pyLower1`). -/
def pyLower (s : PyStr) : PyStr := s.map pyLower1

/-- First component of Python `s.split(sep, 1)` together with the remainder
after the first separator (assuming the separator occurs). -/
def splitFirst (c : Nat) (s : PyStr) : PyStr × PyStr :=
  (s.takeWhile (fun x => x != c), (s.dropWhile (fun x => x != c)).drop 1)

/-- Python substring test `sub in s`. -/
def containsSub (s sub : PyStr) : Bool :=
  (List.range (s.length + 1)).any (fun i => sub.isPrefixOf (s.drop i))

/-- Python `s.endswith(suffix)`. -/
def endsWithPy (s suffix : PyStr) : Bool := suffix.isSuffixOf s

/-! ## UTF-8 (CPython `str.encode("utf-8")` / `bytes.decode("utf-8", "replace")`)

When decoding, CPython replaces each maximal invalid subpart of a byte
sequence with one U+FFFD, which is the WHATWG algorithm embedded below.
When encoding, CPython's strict `str.encode("utf-8")` raises
`UnicodeEncodeError` on an unpaired surrogate; `utf8Encodable` is that
check (code points above U+10FFFF cannot occur in a `str` at all and are
excluded with the surrogates, keeping `utf8Encode` on genuine scalar
values), and `utf8Encode` produces the bytes of an encodable code point. -/

/-- A code point CPython's strict UTF-8 encoder accepts: a Unicode scalar
value, that is anything representable in a `str` except the surrogates
U+D800–U+DFFF. -/
def utf8Encodable (c : Nat) : Bool :=
  decide (c < 0xD800 ∨ (0xE000 ≤ c ∧ c < 0x110000))

/-- Encode one code point to UTF-8 bytes. -/
def utf8Encode (c : Nat) : List Nat :=
  if c < 0x80 then [c]
  else if c < 0x800 then [0xC0 + c / 64, 0x80 + c % 64]
  else if c < 0x10000 then [0xE0 + c / 4096, 0x80 + c / 64 % 64, 0x80 + c % 64]
  else [0xF0 + c / 262144, 0x80 + c / 4096 % 64, 0x80 + c / 64 % 64, 0x80 + c % 64]

/-- Read `n` continuation bytes, the first constrained to `[lo, hi]` and the
rest to `[0x80, 0xBF]`, accumulating into `cp`.  Returns the decoded code
point (or `none` at the first offending byte) and the unconsumed rest. -/
def utf8Grab : Nat → Nat → Nat → Nat → List Nat → Option Nat × List Nat
  | 0, cp, _, _, l => (some cp, l)
  | _ + 1, _, _, _, [] => (none, [])
  | n + 1, cp, lo, hi, b :: rest =>
    if lo ≤ b ∧ b ≤ hi then utf8Grab n (cp * 64 + b % 64) 0x80 0xBF rest
    else (none, b :: rest)

/-- Classify a UTF-8 lead byte: number of continuation bytes, initial code
point bits, and the admissible range of the first continuation byte. -/
def utf8Lead (b : Nat) : Option (Nat × Nat × Nat × Nat) :=
  if 0xC2 ≤ b ∧ b ≤ 0xDF then some (1, b % 32, 0x80, 0xBF)
  else if b = 0xE0 then some (2, b % 16, 0xA0, 0xBF)
  else if b = 0xED then some (2, b % 16, 0x80, 0x9F)
  else if 0xE1 ≤ b ∧ b ≤ 0xEF then some (2, b % 16, 0x80, 0xBF)
  else if b = 0xF0 then some (3, b % 8, 0x90, 0xBF)
  else if b = 0xF4 then some (3, b % 8, 0x80, 0x8F)
  else if 0xF1 ≤ b ∧ b ≤ 0xF3 then some (3, b % 8, 0x80, 0xBF)
  else none

/-- Decode UTF-8 bytes to code points, one U+FFFD per maximal invalid
subpart (CPython `errors="replace"`).  The fuel bounds the number of
iterations; every iteration consumes at least the lead byte, so
`s.length + 1` is always enough. -/
def utf8DecodeReplaceGo : Nat → List Nat → List Nat
  | 0, _ => []
  | _ + 1, [] => []
  | fuel + 1, b :: rest =>
    if b < 0x80 then b :: utf8DecodeReplaceGo fuel rest
    else
      match utf8Lead b with
      | none => 0xFFFD :: utf8DecodeReplaceGo fuel rest
      | some (n, cp, lo, hi) =>
        let r := utf8Grab n cp lo hi rest
        (match r.1 with | some c => c | none => 0xFFFD) :: utf8DecodeReplaceGo fuel r.2

/-- `bytes.decode("utf-8", "replace")`. -/
def utf8DecodeReplace (s : List Nat) : List Nat :=
  utf8DecodeReplaceGo (s.length + 1) s

/-! ## `urllib.parse.quote` / `unquote` -/

/-- Value of an ASCII hex digit, if any (table `_hextobyte` key test). -/
def hexVal? (c : Nat) : Option Nat :=
  if 0x30 ≤ c ∧ c ≤ 0x39 then some (c - 0x30)
  else if 0x41 ≤ c ∧ c ≤ 0x46 then some (c - 0x37)
  else if 0x61 ≤ c ∧ c ≤ 0x66 then some (c - 0x57)
  else none

/-- One `%`-separated chunk of `urllib.parse.unquote_to_bytes`: decode a
leading two-digit hex escape, else restore the literal percent sign. -/
def unquoteBit (bit : List Nat) : List Nat :=
  match bit with
  | a :: b :: rest =>
    match hexVal? a, hexVal? b with
    | some x, some y => (16 * x + y) :: rest
    | _, _ => 0x25 :: a :: b :: rest
  | _ => 0x25 :: bit

/-- `urllib.parse.unquote_to_bytes` on an ASCII chunk. -/
def unquoteToBytes (s : List Nat) : List Nat :=
  match s.splitOn 0x25 with
  | [] => []
  | b0 :: bs => b0 ++ (bs.map unquoteBit).flatten

/-- Core of `urllib.parse.unquote`: split the string into maximal ASCII runs
(`_asciire`), percent-decode each run and UTF-8-decode the resulting bytes
with replacement; non-ASCII code points pass through untouched.  Every
iteration consumes at least one code point, so fuel `s.length + 1`
suffices. -/
def unquoteCoreGo : Nat → PyStr → PyStr
  | 0, _ => []
  | _ + 1, [] => []
  | fuel + 1, c :: rest =>
    if c < 0x80 then
      utf8DecodeReplace (unquoteToBytes ((c :: rest).takeWhile (fun x => decide (x < 0x80)))) ++
        unquoteCoreGo fuel ((c :: rest).dropWhile (fun x => decide (x < 0x80)))
    else
      c :: unquoteCoreGo fuel rest

/-- See `unquoteCoreGo`. -/
def unquoteCore (s : PyStr) : PyStr := unquoteCoreGo (s.length + 1) s

/-- `urllib.parse.unquote` with the default UTF-8/replace handling. -/
def pyUnquote (s : PyStr) : PyStr :=
  if s.contains 0x25 then unquoteCore s else s

/-- Byte kept unescaped by `quote(..., safe="/:%")`: `_ALWAYS_SAFE`
(ASCII letters, digits, `_.-~`) plus the call's safe set `/:%`. -/
def isQuoteSafeByte (b : Nat) : Bool :=
  isAsciiAlpha b || isAsciiDigit b || b == 0x5F || b == 0x2E || b == 0x2D ||
  b == 0x7E || b == 0x2F || b == 0x3A || b == 0x25

/-- Uppercase hex digit of a nibble. -/
def hexUp (n : Nat) : Nat := if n < 10 then 0x30 + n else 0x37 + n

/-- `urllib.parse.quote(s, safe="/:%")`: UTF-8 encode, keep safe bytes,
percent-escape the rest with uppercase hex. -/
def pyQuote (s : PyStr) : PyStr :=
  ((s.map utf8Encode).flatten).map
    (fun b => if isQuoteSafeByte b then [b] else [0x25, hexUp (b / 16), hexUp (b % 16)])
  |>.flatten

/-! ## `ipaddress.ip_address` string validation -/

/-- Decimal value of an ASCII digit string. -/
def digitsVal (s : PyStr) : Nat := s.foldl (fun a c => a * 10 + (c - 0x30)) 0

/-- `ipaddress._BaseV4._parse_octet` accepts the string. -/
def validOctet (s : PyStr) : Bool :=
  !s.isEmpty && s.all isAsciiDigit && decide (s.length ≤ 3) &&
  (s == [0x30] || !(s.head? == some 0x30)) && decide (digitsVal s ≤ 255)

/-- The string parses as an `ipaddress.IPv4Address`. -/
def isIPv4String (s : PyStr) : Bool :=
  !s.contains 0x2F &&
  (let octets := s.splitOn 0x2E
   octets.length == 4 && octets.all validOctet)

/-- `ipaddress._BaseV6._parse_hextet` accepts the string (nonempty, at most
four ASCII hex digits; emptiness fails the `int` conversion). -/
def validHextet (s : PyStr) : Bool :=
  !s.isEmpty && s.all isHexDigit && decide (s.length ≤ 4)

/-- `ipaddress._BaseV6._ip_int_from_string` accepts the address part
(scope id already removed): the `::`-compression and hextet rules. -/
def ipv6AddrValid (addr : PyStr) : Bool :=
  if addr.isEmpty then false else
  let parts0 := addr.splitOn 0x3A
  if parts0.length < 3 then false else
  let lastPart := parts0.getLastD []
  let partsOpt : Option (List PyStr) :=
    if lastPart.contains 0x2E then
      if isIPv4String lastPart then some (parts0.dropLast ++ [[0x30], [0x30]]) else none
    else some parts0
  match partsOpt with
  | none => false
  | some parts =>
    let n := parts.length
    if n > 9 then false else
    let inner := (parts.drop 1).take (n - 2)
    let k := inner.countP (fun p => p.isEmpty)
    if k ≥ 2 then false
    else if k = 1 then
      match inner.findIdx? (fun p => p.isEmpty) with
      | none => false
      | some j =>
        let skip := j + 1
        let headEmpty := parts.head? == some []
        let lastEmpty := parts.getLastD [0x30] == ([] : PyStr)
        if headEmpty && skip != 1 then false
        else if lastEmpty && (n - skip - 1) != 1 then false
        else
          let hi := if headEmpty then skip - 1 else skip
          let lo := if lastEmpty then n - skip - 2 else n - skip - 1
          if hi + lo > 7 then false
          else (parts.take hi).all validHextet && (parts.drop (n - lo)).all validHextet
    else
      n == 8 && !(parts.head? == some []) && !(parts.getLastD [] == ([] : PyStr)) &&
      parts.all validHextet

/-- The string parses as an `ipaddress.IPv6Address` (with optional
`%scope_id`, RFC 4007). -/
def isIPv6String (s : PyStr) : Bool :=
  !s.contains 0x2F &&
  (if s.contains 0x25 then
    let (addr, scope) := splitFirst 0x25 s
    !scope.isEmpty && !scope.contains 0x25 && ipv6AddrValid addr
  else ipv6AddrValid s)

/-- `validators.is_ip_address`: `ipaddress.ip_address(value)` succeeds
(IPv4 attempted first, then IPv6; all failures are caught). -/
def is_ip_address (s : PyStr) : Bool := isIPv4String s || isIPv6String s

/-! ## `urllib.parse.urlsplit` / `urlunsplit` -/

/-- The named 5-tuple returned by `urllib.parse.urlsplit`. -/
structure SplitResult where
  scheme : PyStr
  netloc : PyStr
  path : PyStr
  query : PyStr
  fragment : PyStr
  deriving Repr, DecidableEq

/-- The `ValueError`s that `urllib.parse.urlsplit` can raise. -/
inductive ParseErr where
  /-- Square brackets in the authority are unbalanced (`Invalid IPv6 URL`). -/
  | invalidIPv6URL
  /-- A bracketed host is neither a valid IPv6 address nor an IPvFuture
  literal (or is a bracketed IPv4 address). -/
  | invalidBracketedHost
  /-- A non-ASCII authority whose NFKC normalization introduces one of
  `/?#@:` (`_checknetloc`). -/
  | netlocNFKC
  /-- `str.encode("utf-8")` inside `urllib.parse.quote` rejects an unpaired
  surrogate (`UnicodeEncodeError`, a subclass of `ValueError`). -/
  | unicodeEncodeError
  deriving Repr, DecidableEq

/-- A code point in `scheme_chars` (ASCII letters, digits, `+-.`). -/
def isSchemeChar (c : Nat) : Bool :=
  isAsciiAlpha c || isAsciiDigit c || c == 0x2B || c == 0x2D || c == 0x2E

/-- Non-ASCII code points whose NFKC normalization contains one of `/?#@:`
(the exhaustive set for the Unicode tables shipped with CPython 3.11),
used to embed `urllib.parse._checknetloc`. -/
def nfkcDangerous : List Nat :=
  [0x2047, 0x2048, 0x2049, 0x2100, 0x2101, 0x2105, 0x2106, 0x2A74, 0xFE13,
   0xFE16, 0xFE55, 0xFE56, 0xFE5F, 0xFE6B, 0xFF03, 0xFF0F, 0xFF1A, 0xFF1F, 0xFF20]

/-- `urllib.parse._checknetloc` does not raise: a non-ASCII netloc may not
contain (outside `@:#?`) a character whose NFKC expansion introduces one of
`/?#@:`.  (NFKC-unstable characters with harmless expansions make the real
check return normally, as here.) -/
def checknetlocOk (netloc : PyStr) : Bool :=
  netloc.isEmpty || netloc.all (fun c => decide (c < 0x80)) ||
  !((netloc.filter (fun c => c != 0x40 && c != 0x3A && c != 0x23 && c != 0x3F)).any
      (fun c => nfkcDangerous.contains c))

/-- `urllib.parse._check_bracketed_host` accepts an IPvFuture literal:
the regular expression `v[a-fA-F0-9]+\..+` anchored at both ends
(`.` excludes newline). -/
def ipvFutureOk (h : PyStr) : Bool :=
  match h with
  | c :: t =>
    c == 0x76 &&
    (let hexs := t.takeWhile isHexDigit
     let rest := t.drop hexs.length
     !hexs.isEmpty && rest.head? == some 0x2E && !(rest.drop 1).isEmpty &&
     (rest.drop 1).all (fun x => x != 0x0A))
  | [] => false

/-- `urllib.parse._check_bracketed_host`: IPvFuture literals must match the
pattern; other bracketed hosts must be valid IPv6 (IPv4 in brackets and
non-addresses raise `ValueError`).  The function is present in the
`urllib/parse.py` of CPython 3.11.6, the interpreter this repository runs
under: the bracketed-host validation was a security backport within the
3.11 series, and `urlsplit` calls it whenever the netloc contains both
brackets. -/
def checkBracketedHost (h : PyStr) : Except ParseErr Unit :=
  if h.head? == some 0x76 then
    if ipvFutureOk h then Except.ok () else Except.error ParseErr.invalidBracketedHost
  else if isIPv4String h then Except.error ParseErr.invalidBracketedHost
  else if isIPv6String h then Except.ok ()
  else Except.error ParseErr.invalidBracketedHost

/-- The bracket validations `urlsplit` performs on a freshly split netloc:
balanced square brackets, then `_check_bracketed_host` on the bracketed
part. -/
def netlocChecks (netloc : PyStr) : Except ParseErr Unit :=
  if netloc.contains 0x5B != netloc.contains 0x5D then
    Except.error ParseErr.invalidIPv6URL
  else if netloc.contains 0x5B && netloc.contains 0x5D then
    checkBracketedHost
      (((netloc.dropWhile (fun c => c != 0x5B)).drop 1).takeWhile (fun c => c != 0x5D))
  else Except.ok ()

/-- The WHATWG sanitation `urlsplit` applies first: strip leading C0
controls and spaces (`url.lstrip(_WHATWG_C0_CONTROL_OR_SPACE)`), drop
tab/CR/LF everywhere.  Both steps are in the `urllib/parse.py` of
CPython 3.11.6, the interpreter this repository runs under (the lstrip was
a security backport within the 3.11 series). -/
def urlPrep (url0 : PyStr) : PyStr :=
  (url0.dropWhile (fun c => decide (c ≤ 0x20))).filter
    (fun c => c != 9 && c != 10 && c != 13)

/-- Scheme extraction of `urlsplit`: at the first colon, when everything
before it is a scheme character and the first character an ASCII letter,
the lower-cased prefix becomes the scheme. -/
def splitScheme (url1 : PyStr) : PyStr × PyStr :=
  match url1.findIdx? (fun c => c == 0x3A) with
  | some i =>
    if 0 < i && (match url1.head? with | some c => isAsciiAlpha c | none => false) &&
        (url1.take i).all isSchemeChar
    then (pyLower (url1.take i), url1.drop (i + 1))
    else ([], url1)
  | none => ([], url1)

/-- Authority extraction of `urlsplit`: after a leading `//`, the netloc
runs to the first `/?#` and is validated by `netlocChecks`. -/
def splitAuthority (url2 : PyStr) : Except ParseErr (PyStr × PyStr) :=
  if url2.take 2 = pyStr "//" then
    match netlocChecks
        ((url2.drop 2).takeWhile (fun c => c != 0x2F && c != 0x3F && c != 0x23)) with
    | Except.ok _ =>
      Except.ok
        ((url2.drop 2).takeWhile (fun c => c != 0x2F && c != 0x3F && c != 0x23),
         (url2.drop 2).drop
           ((url2.drop 2).takeWhile
             (fun c => c != 0x2F && c != 0x3F && c != 0x23)).length)
    | Except.error e => Except.error e
  else Except.ok ([], url2)

/-- Fragment split of `urlsplit`: cut at the first `#` when one occurs. -/
def splitFragment (u : PyStr) : PyStr × PyStr :=
  if u.contains 0x23 then splitFirst 0x23 u else (u, [])

/-- Query split of `urlsplit`: cut at the first `?` when one occurs. -/
def splitQuery (u : PyStr) : PyStr × PyStr :=
  if u.contains 0x3F then splitFirst 0x3F u else (u, [])

/-- Fragment and query extraction of `urlsplit`: split at the first `#`,
then the first `?`, returning `(path, query, fragment)`. -/
def splitFragmentQuery (url3 : PyStr) : PyStr × PyStr × PyStr :=
  ((splitQuery (splitFragment url3).1).1, (splitQuery (splitFragment url3).1).2,
   (splitFragment url3).2)

/-- `urllib.parse.urlsplit(url)` for CPython 3.11: sanitize, split off the
scheme, the `//`-authority (validating brackets and bracketed hosts), then
fragment and query, and finally run `_checknetloc`. -/
def urlsplitPy (url0 : PyStr) : Except ParseErr SplitResult :=
  splitAuthority (splitScheme (urlPrep url0)).2 >>= fun nl =>
    if checknetlocOk nl.1 then
      Except.ok ⟨(splitScheme (urlPrep url0)).1, nl.1, (splitFragmentQuery nl.2).1,
        (splitFragmentQuery nl.2).2.1, (splitFragmentQuery nl.2).2.2⟩
    else
      Except.error ParseErr.netlocNFKC

/-- The schemes of `urllib.parse.uses_netloc`, exactly as listed in the
`urllib/parse.py` of CPython 3.11.6, the interpreter this repository runs
under (`rtsps` included). -/
def usesNetlocList : List PyStr :=
  [[], pyStr "ftp", pyStr "http", pyStr "gopher", pyStr "nntp", pyStr "telnet",
   pyStr "imap", pyStr "wais", pyStr "file", pyStr "mms", pyStr "https",
   pyStr "shttp", pyStr "snews", pyStr "prospero", pyStr "rtsp", pyStr "rtsps",
   pyStr "rtspu", pyStr "rsync", pyStr "svn", pyStr "svn+ssh", pyStr "sftp",
   pyStr "nfs", pyStr "git", pyStr "git+ssh", pyStr "ws", pyStr "wss"]

/-- First step of `urllib.parse.urlunsplit`: prepend `//` and the netloc
when a netloc is present (or the scheme conventionally uses one), forcing
a leading slash onto a nonempty relative path. -/
def urlunsplitBase (scheme netloc path : PyStr) : PyStr :=
  if netloc ≠ [] ∨ (scheme ≠ [] ∧ usesNetlocList.contains scheme ∧
      path.take 2 ≠ pyStr "//") then
    pyStr "//" ++ netloc ++
      (if path ≠ [] ∧ path.take 1 ≠ [0x2F] then 0x2F :: path else path)
  else path

/-- `urlunsplit` step `url = scheme + ":" + url`, applied when a scheme is
present. -/
def unsplitAddScheme (scheme url : PyStr) : PyStr :=
  if scheme ≠ [] then scheme ++ 0x3A :: url else url

/-- `urlunsplit` step `url = url + "?" + query`, applied when a query is
present. -/
def unsplitAddQuery (query url : PyStr) : PyStr :=
  if query ≠ [] then url ++ 0x3F :: query else url

/-- `urlunsplit` step `url = url + "#" + fragment`, applied when a fragment
is present. -/
def unsplitAddFragment (fragment url : PyStr) : PyStr :=
  if fragment ≠ [] then url ++ 0x23 :: fragment else url

/-- `urllib.parse.urlunsplit` on a five-component tuple: the four sequential
updates of the local `url` of the CPython source, composed. -/
def urlunsplitPy (scheme netloc path query fragment : PyStr) : PyStr :=
  unsplitAddFragment fragment (unsplitAddQuery query
    (unsplitAddScheme scheme (urlunsplitBase scheme netloc path)))

/-! ## `validators.normalize_url` and `validators.extract_domain` -/

/-- `urllib.parse.quote(s, safe="/:%")` with its default strict encoding:
`str.encode("utf-8")` raises `UnicodeEncodeError` — a subclass of
`ValueError` — when the string contains an unpaired surrogate; otherwise
`quote_from_bytes` keeps the safe bytes and percent-escapes the rest
(`pyQuote`). -/
def pyQuoteStrict (s : PyStr) : Except ParseErr PyStr :=
  if s.all utf8Encodable then Except.ok (pyQuote s)
  else Except.error ParseErr.unicodeEncodeError

/-- `validators.normalize_url`: empty input short-circuits; otherwise strip,
split, default the scheme to `https`, move a schemeless path into the netloc
slot, re-encode the path with `quote(unquote(path), safe="/:%")` — which
raises on an unpaired surrogate in the unquoted path — drop the fragment,
and reassemble. -/
def normalize_url (url : PyStr) : Except ParseErr PyStr := do
  if url = [] then
    pure []
  else
    let parsed ← urlsplitPy (pyStrip url)
    let scheme := if parsed.scheme = [] then pyStr "https" else parsed.scheme
    let netloc := if parsed.netloc = [] then parsed.path else parsed.netloc
    let path := if parsed.netloc = [] then [] else parsed.path
    let query := parsed.query
    let safePath ← pyQuoteStrict (pyUnquote path)
    pure (urlunsplitPy scheme netloc safePath query [])

/-- `validators.extract_domain`: the lower-cased netloc of the URL, cut at
the first colon when one is present. -/
def extract_domain (url : PyStr) : Except ParseErr PyStr := do
  let parsed ← urlsplitPy url
  if (pyLower parsed.netloc).contains 0x3A then
    pure ((pyLower parsed.netloc).takeWhile (fun c => c != 0x3A))
  else
    pure (pyLower parsed.netloc)

/-! ## `difflib.SequenceMatcher` (no junk; second sequence shorter than 200)

Both call sites in `security.py` pass the short brand string as the second
sequence, so the autojunk heuristic (which needs `len(b) >= 200`) never
fires and `find_longest_match` satisfies its documented contract: among all
maximal matching blocks return the one starting earliest in `a`, and of
those the one starting earliest in `b`; `(0, 0, 0)` when nothing matches. -/

/-- Length of the common prefix of two lists. -/
def commonPrefixLen : List Nat → List Nat → Nat
  | x :: xs, y :: ys => if x = y then commonPrefixLen xs ys + 1 else 0
  | _, _ => 0

/-- Fold step of `findLongestMatch`: replace the best block by a strictly
longer one (candidates are visited in ascending `(i, j)` order, which gives
the documented least-`i`-then-least-`j` tie-break). -/
def flmStep (a b : List Nat) (best : Nat × Nat × Nat) (c : Nat × Nat) : Nat × Nat × Nat :=
  if commonPrefixLen (a.drop c.1) (b.drop c.2) > best.2.2
  then (c.1, c.2, commonPrefixLen (a.drop c.1) (b.drop c.2)) else best

/-- `difflib.SequenceMatcher.find_longest_match` on whole (sub)sequences:
the longest matching block `(i, j, k)`, ties broken by least `i` then least
`j`; `(0, 0, 0)` if no element matches. -/
def findLongestMatch (a b : List Nat) : Nat × Nat × Nat :=
  ((List.range a.length).flatMap (fun i => (List.range b.length).map (fun j => (i, j)))).foldl
    (flmStep a b) (0, 0, 0)

/-- Total size of the matching blocks of `difflib`'s `get_matching_blocks`:
the length of the recursively found longest match plus the totals of the
two flanking regions.  The fuel bounds the recursion depth: a found block
has positive length, so both flanking regions are strictly shorter in
total, and `a.length + b.length + 1` is always enough. -/
def matchTotalGo : Nat → List Nat → List Nat → Nat
  | 0, _, _ => 0
  | fuel + 1, a, b =>
    match findLongestMatch a b with
    | (i, j, k) =>
      if k = 0 then 0
      else
        matchTotalGo fuel (a.take i) (b.take j) + k +
          matchTotalGo fuel (a.drop (i + k)) (b.drop (j + k))

/-- See `matchTotalGo`. -/
def matchTotal (a b : List Nat) : Nat := matchTotalGo (a.length + b.length + 1) a b

/-- `difflib.SequenceMatcher(None, a, b).ratio()`: `2M / (len a + len b)`
with matches counted by `get_matching_blocks`; `1` for two empty
sequences. -/
def pyRatio (a b : List Nat) : ℚ :=
  if a.length + b.length = 0 then 1
  else mkRat (2 * matchTotal a b) (a.length + b.length)

/-! ## `encodings.punycode` -/

/-- Clamped threshold `T(j, bias)` of RFC 3492 (`tmin = 1`, `tmax = 26`). -/
def punyT (j bias : Nat) : Nat :=
  let r := 36 * (j + 1) - bias
  if r < 1 then 1 else if r > 26 then 26 else r

/-- Bias adaptation inner loop (`while delta > 455`); the value shrinks by
a factor of 35 per iteration, so fuel `delta + 1` is always enough. -/
def punyAdaptLoop : Nat → Nat → Nat → Nat × Nat
  | 0, delta, divisions => (delta, divisions)
  | fuel + 1, delta, divisions =>
    if delta > 455 then punyAdaptLoop fuel (delta / 35) (divisions + 36)
    else (delta, divisions)

/-- `encodings.punycode.adapt`. -/
def punyAdapt (delta0 : Nat) (first : Bool) (numchars : Nat) : Nat :=
  let d1 := if first then delta0 / 700 else delta0 / 2
  let d2 := d1 + d1 / numchars
  let p := punyAdaptLoop (d2 + 1) d2 0
  p.2 + 36 * p.1 / (p.1 + 38)

/-- `encodings.punycode.decode_generalized_number` (strict errors become
`none`): read one generalized variable-length integer starting at `extpos`;
digits are `A`–`Z` and `0`–`9` since the extended part was upper-cased. -/
def decodeGenNumGo (ext : List Nat) (bias : Nat) :
    Nat → Nat → Nat → Nat → Nat → Option (Nat × Nat)
  | 0, _, _, _, _ => none
  | fuel + 1, extpos, result, w, j =>
    match ext.get? extpos with
    | none => none
    | some c =>
      let digit? : Option Nat :=
        if 0x41 ≤ c ∧ c ≤ 0x5A then some (c - 0x41)
        else if 0x30 ≤ c ∧ c ≤ 0x39 then some (c - 22)
        else none
      match digit? with
      | none => none
      | some digit =>
        let t := punyT j bias
        let result1 := result + digit * w
        if digit < t then some (extpos + 1, result1)
        else decodeGenNumGo ext bias fuel (extpos + 1) result1 (w * (36 - t)) (j + 1)

/-- `encodings.punycode.insertion_sort` (decoding; strict errors become
`none`): repeatedly decode a delta and insert the next code point. -/
def insertionSortGo (ext : List Nat) :
    Nat → List Nat → Int → Nat → Nat → Nat → Option (List Nat)
  | 0, base, _, _, _, extpos =>
    if extpos < ext.length then none else some base
  | fuel + 1, base, pos, char, bias, extpos =>
    if extpos < ext.length then
      match decodeGenNumGo ext bias (ext.length + 1) extpos 0 1 0 with
      | none => none
      | some (newpos, delta) =>
        let pos1 : Int := pos + delta + 1
        let char1 := char + (pos1 / ((base.length : Int) + 1)).toNat
        if char1 > 0x10FFFF then none
        else
          let posm := (pos1 % ((base.length : Int) + 1)).toNat
          let base1 := base.take posm ++ char1 :: base.drop posm
          insertionSortGo ext fuel base1 posm char1
            (punyAdapt delta (extpos == 0) base1.length) newpos
    else some base

/-- Index of the last occurrence of `c` in `s` (Python `rfind`). -/
def lastIdx? (s : List Nat) (c : Nat) : Option Nat :=
  (s.reverse.findIdx? (fun x => x == c)).map (fun r => s.length - 1 - r)

/-- `encodings.punycode.punycode_decode` on ASCII bytes: split at the last
hyphen, upper-case the extended part, and run insertion sort. -/
def punycodeDecode (text : List Nat) : Option (List Nat) :=
  let (base, ext0) :=
    match lastIdx? text 0x2D with
    | none => (([] : List Nat), text)
    | some p => (text.take p, text.drop (p + 1))
  let ext := ext0.map (fun c => if isAsciiLower c then c - 0x20 else c)
  insertionSortGo ext (ext.length + 1) base (-1) 0x80 72 0

/-- Digit character of RFC 3492 (`a`–`z`, then `0`–`9`). -/
def digitChar (d : Nat) : Nat := if d < 26 then 0x61 + d else 0x30 + (d - 26)

/-- `encodings.punycode.generate_generalized_integer` (fuelled: the value
strictly shrinks every iteration). -/
def genGenIntGo : Nat → Nat → Nat → Nat → List Nat
  | 0, _, _, _ => []
  | fuel + 1, nv, bias, j =>
    let t := punyT j bias
    if nv < t then [digitChar nv]
    else digitChar (t + (nv - t) % (36 - t)) :: genGenIntGo fuel ((nv - t) / (36 - t)) bias (j + 1)

/-- `encodings.punycode.generate_integers`: encode each delta, adapting the
bias after every code point. -/
def generateIntegers (baselen : Nat) : List Int → Nat → Nat → List Nat
  | [], _, _ => []
  | d :: ds, bias, points =>
    let nv := d.toNat
    genGenIntGo (nv + 2) nv bias 0 ++
      generateIntegers baselen ds (punyAdapt nv (points == 0) (baselen + points + 1)) (points + 1)

/-- `encodings.punycode.selective_find`, with the index argument shifted by
one so that it stays a natural number: returns Python's `index + 1` and the
position of the next occurrence of `ch` at or after position `p`. -/
def selectiveFindGo (s : List Nat) (ch : Nat) :
    Nat → Nat → Nat → Option (Nat × Nat)
  | 0, _, _ => none
  | fuel + 1, idx1, p =>
    match s.get? p with
    | none => none
    | some c =>
      if c = ch then some (idx1, p)
      else if c < ch then selectiveFindGo s ch fuel (idx1 + 1) (p + 1)
      else selectiveFindGo s ch fuel idx1 (p + 1)

/-- Inner loop of `encodings.punycode.insertion_unsort` for one extended
character: emit a delta for every occurrence. -/
def unsortInner (s : List Nat) (ch : Nat) :
    Nat → Nat → Nat → Int → Int → List Int × Int
  | 0, _, _, _, oldindex => ([], oldindex)
  | fuel + 1, x, p, delta, oldindex =>
    match selectiveFindGo s ch (s.length + 1) x p with
    | none => ([], oldindex)
    | some (r, pos) =>
      let delta1 := delta + (r : Int) - oldindex
      let rec0 := unsortInner s ch fuel (r + 1) (pos + 1) 0 (r : Int)
      ((delta1 - 1) :: rec0.1, rec0.2)

/-- `encodings.punycode.insertion_unsort`: deltas for the sorted extended
characters. -/
def insertionUnsort (s : List Nat) : List Nat → Nat → Int → List Int
  | [], _, _ => []
  | c :: cs, oldchar, oldindex =>
    let curlen := s.countP (fun x => decide (x < c))
    let delta0 : Int := ((curlen : Int) + 1) * ((c : Int) - (oldchar : Int))
    let inner := unsortInner s c (s.length + 1) 0 0 delta0 oldindex
    inner.1 ++ insertionUnsort s cs c inner.2

/-- Insert into a sorted list (ascending). -/
def insertSorted (x : Nat) : List Nat → List Nat
  | [] => [x]
  | y :: ys => if x ≤ y then x :: y :: ys else y :: insertSorted x ys

/-- Sort ascending (Python `sorted` on a set of code points). -/
def sortNat (l : List Nat) : List Nat := l.foldr insertSorted []

/-- `encodings.punycode.punycode_encode`. -/
def punycodeEncode (s : List Nat) : List Nat :=
  let base := s.filter (fun c => decide (c < 0x80))
  let ext := sortNat (s.filter (fun c => decide (0x80 ≤ c))).dedup
  let deltas := insertionUnsort s ext 0x80 (-1)
  let extb := generateIntegers base.length deltas 72 0
  if base ≠ [] then base ++ 0x2D :: extb else extb

/-! ## `encodings.idna` (`ToASCII` / `ToUnicode` / codec decode)

The nameprep step is embedded with its table B.1 deletions, the
case-folding entries for the scripts this repository manipulates (table B.2
restricted to ASCII, Latin-1, Greek and Cyrillic), NFKC as the identity,
and the prohibition tables in full (RFC 3454 tables C.1.2, C.2.2 and
C.3–C.9 exactly as CPython's `stringprep` computes them over Unicode
3.2.0).  Only the bidi check (tables D.1/D.2) is omitted: it can only fire
on labels containing a character of bidirectional class R or AL
(Hebrew/Arabic scripts), outside the scripts the model covers.  These
restrictions only influence whether an exotic punycode label round-trips
(and hence decodes or falls back to its raw form); no claim below depends
on them. -/

/-- Stringprep table B.1 (map to nothing). -/
def tableB1 : List Nat :=
  [0x00AD, 0x034F, 0x1806, 0x180B, 0x180C, 0x180D, 0x200B, 0x200C, 0x200D,
   0x2060, 0xFE00, 0xFE01, 0xFE02, 0xFE03, 0xFE04, 0xFE05, 0xFE06, 0xFE07,
   0xFE08, 0xFE09, 0xFE0A, 0xFE0B, 0xFE0C, 0xFE0D, 0xFE0E, 0xFE0F, 0xFEFF]

/-- The union of the stringprep prohibition tables `nameprep` enforces,
exactly as CPython's `stringprep` module computes them over Unicode 3.2.0:
C.1.2 (non-ASCII spaces), C.2.2 (non-ASCII controls and `c22_specials`),
C.3 (private use), C.4 (non-characters), C.5 (surrogates), C.6–C.9. -/
def nameprepProhibited (c : Nat) : Bool :=
  decide (c = 0xA0 ∨ c = 0x1680 ∨ (0x2000 ≤ c ∧ c ≤ 0x200B) ∨ c = 0x202F ∨
    c = 0x205F ∨ c = 0x3000) ||
  decide ((0x80 ≤ c ∧ c ≤ 0x9F) ∨ c = 0x6DD ∨ c = 0x70F ∨ c = 0x180E ∨
    c = 0x200C ∨ c = 0x200D ∨ c = 0x2028 ∨ c = 0x2029 ∨
    (0x2060 ≤ c ∧ c ≤ 0x2063) ∨ (0x206A ≤ c ∧ c ≤ 0x206F) ∨ c = 0xFEFF ∨
    (0xFFF9 ≤ c ∧ c ≤ 0xFFFC) ∨ (0x1D173 ≤ c ∧ c ≤ 0x1D17A)) ||
  decide ((0xE000 ≤ c ∧ c ≤ 0xF8FF) ∨ (0xF0000 ≤ c ∧ c ≤ 0xFFFFD) ∨
    (0x100000 ≤ c ∧ c ≤ 0x10FFFD)) ||
  decide (0xFDD0 ≤ c ∧ (c < 0xFDF0 ∨ c % 0x10000 = 0xFFFE ∨ c % 0x10000 = 0xFFFF)) ||
  decide (0xD800 ≤ c ∧ c ≤ 0xDFFF) ||
  decide (0xFFF9 ≤ c ∧ c ≤ 0xFFFD) ||
  decide (0x2FF0 ≤ c ∧ c ≤ 0x2FFB) ||
  decide (c = 0x340 ∨ c = 0x341 ∨ c = 0x200E ∨ c = 0x200F ∨
    (0x202A ≤ c ∧ c ≤ 0x202E)) ||
  decide (c = 0xE0001 ∨ (0xE0020 ≤ c ∧ c ≤ 0xE007F))

/-- Restricted nameprep (RFC 3491): delete table B.1 characters, case-fold
(table B.2 restricted to ASCII, Latin-1, Greek — including final sigma —
and Cyrillic, NFKC as the identity), then reject the result if it contains
a prohibited character (`UnicodeError` becomes `none`); the bidi check is
omitted, see the section comment. -/
def nameprepModel (s : PyStr) : Option PyStr :=
  if ((s.filter (fun c => !tableB1.contains c)).map
      (fun c => if c = 0x3C2 then 0x3C3 else pyLower1 c)).any nameprepProhibited then
    none
  else
    some ((s.filter (fun c => !tableB1.contains c)).map
      (fun c => if c = 0x3C2 then 0x3C3 else pyLower1 c))

/-- Every code point is ASCII. -/
def allAscii (s : PyStr) : Bool := s.all (fun c => decide (c < 0x80))

/-- `encodings.idna.ToASCII` (`UnicodeError` becomes `none`). -/
def toASCIIModel (label : PyStr) : Option (List Nat) :=
  if allAscii label then
    if 0 < label.length ∧ label.length < 64 then some label else none
  else
    match nameprepModel label with
    | none => none
    | some l2 =>
      if allAscii l2 then
        if 0 < l2.length ∧ l2.length < 64 then some l2 else none
      else if l2.take 4 = pyStr "xn--" then none
      else
        let res := pyStr "xn--" ++ punycodeEncode l2
        if 0 < res.length ∧ res.length < 64 then some res else none

/-- `encodings.idna.ToUnicode` on an ASCII label (`UnicodeError` becomes
`none`): pass through labels without the ACE prefix, else punycode-decode
and verify the `ToASCII` round trip case-insensitively. -/
def toUnicodeModel (label : List Nat) : Option PyStr :=
  if ¬ label.take 4 = pyStr "xn--" then some label
  else
    match punycodeDecode (label.drop 4) with
    | none => none
    | some result =>
      match toASCIIModel result with
      | none => none
      | some label2 =>
        if pyLower label = label2 then some result else none

/-- `encodings.idna.Codec.decode` on ASCII bytes: fast path when `xn--`
never occurs, else decode each dot-separated label, preserving one trailing
dot. -/
def idnaDecode (input : List Nat) : Option PyStr :=
  if input = [] then some []
  else if ¬ containsSub input (pyStr "xn--") then some input
  else
    let labels0 := input.splitOn 0x2E
    let trailing := labels0.getLastD [0x30] = ([] : PyStr)
    let labels := if trailing then labels0.dropLast else labels0
    match labels.mapM toUnicodeModel with
    | none => none
    | some ls =>
      some (List.intercalate [0x2E] ls ++ if trailing then [0x2E] else [])

/-! ## Remaining validators -/

/-- `validators.to_unicode_domain`: IDNA-decode a pure-ASCII domain, fall
back to the input on any failure (including non-ASCII input, whose
`encode("ascii")` raises before IDNA decoding is attempted). -/
def to_unicode_domain (domain : PyStr) : PyStr :=
  if allAscii domain then
    match idnaDecode domain with
    | some r => r
    | none => domain
  else domain

/-- `validators.contains_punycode`: some dot-separated label of the
lower-cased domain starts with `xn--`. -/
def contains_punycode (domain : PyStr) : Bool :=
  ((pyLower domain).splitOn 0x2E).any (fun part => (pyStr "xn--").isPrefixOf part)

/-- `validators.has_suspicious_unicode`: the regular expression
`[Ѐ-ӿα-ω]` matches the decoded domain. -/
def has_suspicious_unicode (domain : PyStr) : Bool :=
  (to_unicode_domain domain).any (fun c =>
    decide (0x400 ≤ c ∧ c ≤ 0x4FF) || decide (0x3B1 ≤ c ∧ c ≤ 0x3C9))

/-- The table `_ASCII_CONFUSABLES` of `validators.py` as key/value pairs
(`0→o, 1→l, 3→e, 4→a, 5→s, 6→g, 7→t, 8→b, 9→g, @→a`). -/
def asciiConfusablePairs : List (Nat × Nat) :=
  [(0x30, 0x6F), (0x31, 0x6C), (0x33, 0x65), (0x34, 0x61), (0x35, 0x73),
   (0x36, 0x67), (0x37, 0x74), (0x38, 0x62), (0x39, 0x67), (0x40, 0x61)]

/-- `_ASCII_CONFUSABLES.get(char)`. -/
def asciiConfusable? (c : Nat) : Option Nat :=
  (asciiConfusablePairs.find? (fun p => p.1 == c)).map (fun p => p.2)

/-- The table `_CYR_TO_LATIN` of `validators.py`. -/
def cyrToLatin : List (Nat × PyStr) :=
  [(0x430, pyStr "a"), (0x431, pyStr "b"), (0x432, pyStr "v"), (0x433, pyStr "g"),
   (0x434, pyStr "d"), (0x435, pyStr "e"), (0x451, pyStr "e"), (0x436, pyStr "zh"),
   (0x437, pyStr "z"), (0x438, pyStr "i"), (0x439, pyStr "i"), (0x43A, pyStr "k"),
   (0x43B, pyStr "l"), (0x43C, pyStr "m"), (0x43D, pyStr "n"), (0x43E, pyStr "o"),
   (0x43F, pyStr "p"), (0x440, pyStr "r"), (0x441, pyStr "s"), (0x442, pyStr "t"),
   (0x443, pyStr "u"), (0x444, pyStr "f"), (0x445, pyStr "h"), (0x446, pyStr "c"),
   (0x447, pyStr "ch"), (0x448, pyStr "sh"), (0x449, pyStr "sh"), (0x44A, []),
   (0x44B, pyStr "y"), (0x44C, []), (0x44D, pyStr "e"), (0x44E, pyStr "yu"),
   (0x44F, pyStr "ya")]

/-- The table `_GREEK_TO_LATIN` of `validators.py`. -/
def greekToLatin : List (Nat × PyStr) :=
  [(0x3B1, pyStr "a"), (0x3B2, pyStr "b"), (0x3B3, pyStr "g"), (0x3B4, pyStr "d"),
   (0x3B5, pyStr "e"), (0x3B6, pyStr "z"), (0x3B7, pyStr "e"), (0x3B8, pyStr "th"),
   (0x3B9, pyStr "i"), (0x3BA, pyStr "k"), (0x3BB, pyStr "l"), (0x3BC, pyStr "m"),
   (0x3BD, pyStr "n"), (0x3BE, pyStr "x"), (0x3BF, pyStr "o"), (0x3C0, pyStr "p"),
   (0x3C1, pyStr "r"), (0x3C3, pyStr "s"), (0x3C4, pyStr "t"), (0x3C5, pyStr "y"),
   (0x3C6, pyStr "f"), (0x3C7, pyStr "x"), (0x3C8, pyStr "ps"), (0x3C9, pyStr "o")]

/-- Python `str.upper` for the source characters of the confusable tables
(lower-case Cyrillic and Greek); identity elsewhere. -/
def pyUpper1 (c : Nat) : Nat :=
  if isAsciiLower c then c - 0x20
  else if 0x3B1 ≤ c ∧ c ≤ 0x3C9 ∧ c ≠ 0x3C2 then c - 0x20
  else if 0x430 ≤ c ∧ c ≤ 0x44F then c - 0x20
  else if 0x450 ≤ c ∧ c ≤ 0x45F then c - 0x50
  else c

/-- The table `_UNICODE_CONFUSABLES` of `validators.py`: both source tables
plus an upper-case duplicate of every key whose upper case differs. -/
def unicodeConfusables : List (Nat × PyStr) :=
  (cyrToLatin ++ greekToLatin).flatMap (fun p =>
    let u := pyUpper1 p.1
    if u ≠ p.1 then [p, (u, p.2)] else [p])

/-- Dictionary lookup in `_UNICODE_CONFUSABLES`. -/
def lookupConf (c : Nat) : Option PyStr :=
  (unicodeConfusables.find? (fun p => p.1 == c)).map (fun p => p.2)

/-- Modelled `unicodedata.normalize("NFKC", s)`: the identity, which is
exact on NFC text over the scripts this repository manipulates (ASCII,
precomposed Latin-1, Greek, Cyrillic); compatibility characters outside
those ranges are not modelled. -/
def nfkcModel (s : PyStr) : PyStr := s

/-- Lower-cased ASCII remainder of `unicodedata.normalize("NFKD", chr c)`
(`encode("ascii", "ignore")`), embedded for Latin-1 letters with
diacritics; other non-ASCII code points yield the empty remainder. -/
def nfkdAsciiLower (c : Nat) : PyStr :=
  if (0xC0 ≤ c ∧ c ≤ 0xC5) ∨ (0xE0 ≤ c ∧ c ≤ 0xE5) then [0x61]
  else if c = 0xC7 ∨ c = 0xE7 then [0x63]
  else if (0xC8 ≤ c ∧ c ≤ 0xCB) ∨ (0xE8 ≤ c ∧ c ≤ 0xEB) then [0x65]
  else if (0xCC ≤ c ∧ c ≤ 0xCF) ∨ (0xEC ≤ c ∧ c ≤ 0xEF) then [0x69]
  else if c = 0xD1 ∨ c = 0xF1 then [0x6E]
  else if (0xD2 ≤ c ∧ c ≤ 0xD6) ∨ (0xF2 ≤ c ∧ c ≤ 0xF6) then [0x6F]
  else if (0xD9 ≤ c ∧ c ≤ 0xDC) ∨ (0xF9 ≤ c ∧ c ≤ 0xFC) then [0x75]
  else if c = 0xDD ∨ c = 0xFD ∨ c = 0xFF then [0x79]
  else []

/-- Per-character step of `validators.ascii_skeleton`: ASCII confusables
first, then plain ASCII lower-cased, then a non-empty confusable-table
transliteration, else the ASCII remainder of the NFKD decomposition. -/
def skeletonChar (ch : Nat) : PyStr :=
  match asciiConfusable? ch with
  | some m => [m]
  | none =>
    if ch < 0x80 then [pyLower1 ch]
    else
      match lookupConf ch with
      | some m => if m ≠ [] then pyLower m else nfkdAsciiLower ch
      | none => nfkdAsciiLower ch

/-- `validators.ascii_skeleton`: decode punycode, normalize (NFKC), then
map every character through the confusable tables. -/
def ascii_skeleton (value : PyStr) : PyStr :=
  if value = [] then []
  else (nfkcModel (to_unicode_domain value)).flatMap skeletonChar

/-! ## `security.py` -/

/-- The list `_SUSPICIOUS_WORDS`. -/
def SUSPICIOUS_WORDS : List PyStr :=
  [pyStr "login", pyStr "verify", pyStr "secure", pyStr "free", pyStr "gift",
   pyStr "confirm", pyStr "bank", pyStr "update", pyStr "account", pyStr "auth"]

/-- The list `_KNOWN_BRANDS`. -/
def KNOWN_BRANDS : List PyStr :=
  [pyStr "microsoft.com", pyStr "google.com", pyStr "apple.com",
   pyStr "facebook.com", pyStr "paypal.com", pyStr "amazon.com",
   pyStr "instagram.com", pyStr "netflix.com", pyStr "steamcommunity.com",
   pyStr "kaspibank.kz", pyStr "bank.kz"]

/-- The set `_SUSPICIOUS_PARAMS`. -/
def SUSPICIOUS_PARAMS : List PyStr :=
  [pyStr "redirect", pyStr "redir", pyStr "return", pyStr "next",
   pyStr "continue", pyStr "url", pyStr "target", pyStr "dest",
   pyStr "destination", pyStr "goto"]

/-- One warning appended by `check_url_safety`, as a tag carrying the data
interpolated into the human-readable Russian message. -/
inductive Warning where
  /-- Link does not use HTTPS. -/
  | nonHttps
  /-- The domain is an IP address. -/
  | ipHost
  /-- The normalized URL is longer than 150 characters. -/
  | tooLong
  /-- A suspicious keyword occurs in the lower-cased URL. -/
  | keyword (w : PyStr)
  /-- The URL shows redirect markers (`?redirect=` or `//@`). -/
  | redirect
  /-- A query parameter key from the redirect-parameter set. -/
  | suspiciousParam (k : PyStr)
  /-- A query parameter value carrying an `http://` target. -/
  | httpParamValue (k v : PyStr)
  /-- Whole-domain similarity to a known brand. -/
  | brandWhole (dom brand : PyStr)
  /-- A brand-like fragment inside the domain skeleton. -/
  | brandFragment (dom label : PyStr)
  /-- Punycode or unusual Unicode in the domain. -/
  | punycodeUnicode
  deriving Repr, DecidableEq

/-- The `risk_level` strings `"low"`, `"medium"`, `"high"`. -/
inductive Risk where
  | low
  | medium
  | high
  deriving Repr, DecidableEq

/-- `security._assess_risk`. -/
def _assess_risk (warnings : List Warning) : Risk :=
  if warnings = [] then Risk.low
  else if warnings.length ≤ 2 then Risk.medium
  else Risk.high

/-- `security.SecurityReport` (the dict returned by `as_dict`). -/
structure SecurityReport where
  safe : Bool
  warnings : List Warning
  risk_level : Risk
  deriving Repr, DecidableEq

/-- Warnings appended by `security._check_redirects`. -/
def _check_redirects (urlLower : PyStr) : List Warning :=
  if containsSub urlLower (pyStr "?redirect=") || containsSub urlLower (pyStr "//@")
  then [Warning.redirect] else []

/-- Warnings appended by `security._check_keywords`: one per matching
keyword, in list order. -/
def _check_keywords (urlLower : PyStr) : List Warning :=
  (SUSPICIOUS_WORDS.filter (fun w => containsSub urlLower w)).map Warning.keyword

/-- ASCII letter or digit (`str.isalnum` on the ASCII-only skeletons). -/
def isAsciiAlnum (c : Nat) : Bool := isAsciiAlpha c || isAsciiDigit c

/-- `security._contains_brand_fragment`: compact both skeletons to
alphanumerics; match on literal containment or a sliding-window block
ratio of at least 0.85. -/
def _contains_brand_fragment (domainSkeleton brandLabel : PyStr) : Bool :=
  let brandSkeleton := ascii_skeleton brandLabel
  let domainCompact := domainSkeleton.filter isAsciiAlnum
  let brandCompact := brandSkeleton.filter isAsciiAlnum
  if domainCompact = [] ∨ brandCompact = [] then false
  else if containsSub domainCompact brandCompact then true
  else
    let dc := if domainCompact.length < brandCompact.length then brandCompact else domainCompact
    let bc := if domainCompact.length < brandCompact.length then domainCompact else brandCompact
    (List.range (dc.length - bc.length + 1)).any (fun idx =>
      decide (pyRatio ((dc.drop idx).take bc.length) bc ≥ mkRat 17 20))

/-- `urllib.parse.parse_qsl(query, keep_blank_values=True)`: split on `&`,
drop empty chunks, split each at the first `=` (missing value becomes
empty), map `+` to space and percent-decode both sides. -/
def parse_qsl (qs : PyStr) : List (PyStr × PyStr) :=
  if qs = [] then []
  else
    (qs.splitOn 0x26).filterMap (fun nv =>
      if nv = [] then none
      else
        let p := if nv.contains 0x3D then splitFirst 0x3D nv else (nv, [])
        some (pyUnquote (p.1.map (fun c => if c == 0x2B then 0x20 else c)),
              pyUnquote (p.2.map (fun c => if c == 0x2B then 0x20 else c))))

/-- Warnings appended by `security._check_query_params`: for each parsed
parameter, a key warning when the lower-cased key is a redirect-parameter
name, then a value warning when the value mentions `http://`. -/
def _check_query_params (query : PyStr) : List Warning :=
  if query = [] then []
  else
    (parse_qsl query).flatMap (fun kv =>
      (if SUSPICIOUS_PARAMS.contains (pyLower kv.1)
       then [Warning.suspiciousParam kv.1] else []) ++
      (if kv.2 ≠ [] ∧ containsSub (pyLower kv.2) (pyStr "http://")
       then [Warning.httpParamValue kv.1 kv.2] else []))

/-- The brand loop of `security._check_domain_spoof`: skip brands the
decoded domain legitimately ends with; emit the whole-string warning when
the ratio lies strictly between 0.82 and 1, else the fragment warning when
the compacted skeletons match; stop at the first hit. -/
def spoofLoop (unicodeDomain domainSkeleton : PyStr) : List PyStr → Option Warning
  | [] => none
  | brand :: rest =>
    if endsWithPy unicodeDomain brand then spoofLoop unicodeDomain domainSkeleton rest
    else if mkRat 41 50 < pyRatio unicodeDomain brand ∧ pyRatio unicodeDomain brand < 1 then
      some (Warning.brandWhole unicodeDomain brand)
    else if _contains_brand_fragment domainSkeleton ((splitFirst 0x2E brand).1) then
      some (Warning.brandFragment unicodeDomain ((splitFirst 0x2E brand).1))
    else spoofLoop unicodeDomain domainSkeleton rest

/-- Warnings appended by `security._check_domain_spoof`: at most one brand
warning from the loop, then the punycode/Unicode warning. -/
def _check_domain_spoof (domain : PyStr) : List Warning :=
  let unicodeDomain := to_unicode_domain domain
  let domainSkeleton := ascii_skeleton unicodeDomain
  (match spoofLoop unicodeDomain domainSkeleton KNOWN_BRANDS with
   | some w => [w]
   | none => []) ++
  (if contains_punycode domain || has_suspicious_unicode domain
   then [Warning.punycodeUnicode] else [])

/-- `security.check_url_safety`: normalize, split, run every check in
order, and fold the warnings into a report. -/
def check_url_safety (url : PyStr) : Except ParseErr SecurityReport := do
  let normalized ← normalize_url url
  let parsed ← urlsplitPy normalized
  let urlLower := pyLower normalized
  let w1 : List Warning :=
    if parsed.scheme ≠ pyStr "https" then [Warning.nonHttps] else []
  let domain ← extract_domain normalized
  let w2 : List Warning := if is_ip_address domain then [Warning.ipHost] else []
  let w3 : List Warning := if normalized.length > 150 then [Warning.tooLong] else []
  let warnings := w1 ++ w2 ++ w3 ++ _check_keywords urlLower ++
    _check_redirects urlLower ++ _check_query_params parsed.query ++
    _check_domain_spoof domain
  pure ⟨warnings.isEmpty, warnings, _assess_risk warnings⟩

/-! ## Specification-side definitions

These definitions restate parts of the specification in its own words, to
be compared with the source-derived definitions above. -/

/-- Specification-side test for one brand of the spoof loop: the decoded
domain does not end with the brand and either the whole-string ratio lies
strictly between 0.82 and 1 or the compacted skeletons show the brand's
bare label.  A brand warning is emitted exactly for the first brand
satisfying this. -/
def spoofHit (ud dsk brand : PyStr) : Bool :=
  !endsWithPy ud brand &&
  (decide (mkRat 41 50 < pyRatio ud brand ∧ pyRatio ud brand < 1) ||
   _contains_brand_fragment dsk ((splitFirst 0x2E brand).1))

/-- A warning produced by the brand loop (as opposed to the other checks). -/
def isBrandWarning : Warning → Bool
  | Warning.brandWhole _ _ => true
  | Warning.brandFragment _ _ => true
  | _ => false

/-- The ASCII look-alike table exactly as the specification lists it:
`0→o, 1→l, 3→e, 4→a, 5→s, 6→g, 7→t, 8→b, 9→g, @→a`. -/
def asciiConfusableTable : List (Nat × Nat) :=
  [(0x30, 0x6F), (0x31, 0x6C), (0x33, 0x65), (0x34, 0x61), (0x35, 0x73),
   (0x36, 0x67), (0x37, 0x74), (0x38, 0x62), (0x39, 0x67), (0x40, 0x61)]

/-- Specification-side confusable lookup: a case-insensitive search of the
two base transliteration tables (a character matches a key if it equals
the key or the key's upper case). -/
def specLookupCaseInsensitive (c : Nat) : Option PyStr :=
  ((cyrToLatin ++ greekToLatin).find? (fun p => p.1 == c || pyUpper1 p.1 == c)).map
    (fun p => p.2)

/-- Per-character skeleton rule as the specification words it: substitute
ASCII look-alikes by the fixed table; keep other ASCII lower-cased;
transliterate known Cyrillic/Greek letters case-insensitively, dropping
empty mappings; otherwise keep the lower-cased ASCII remainder of the
NFKD decomposition. -/
def skeletonCharSpec (ch : Nat) : PyStr :=
  match (asciiConfusableTable.find? (fun p => p.1 == ch)).map (fun p => p.2) with
  | some m => [m]
  | none =>
    if ch < 0x80 then [pyLower1 ch]
    else
      match specLookupCaseInsensitive ch with
      | some m => if m ≠ [] then pyLower m else nfkdAsciiLower ch
      | none => nfkdAsciiLower ch

end SafeQR

namespace SafeQR

/-! ## Helper lemmas -/

theorem exceptBind_ok {α β : Type} (a : α) (f : α → Except ParseErr β) :
    (Except.ok a >>= f : Except ParseErr β) = f a := rfl

theorem exceptBind_error {α β : Type} (e : ParseErr) (f : α → Except ParseErr β) :
    ((Except.error e : Except ParseErr α) >>= f) = Except.error e := rfl

theorem takeWhile_ne_of_not_mem (l : PyStr) (x : Nat)
    (h : x ∉ l) : l.takeWhile (fun c => c != x) = l := by
  induction l with
  | nil => rfl
  | cons a t ih =>
    have h1 : ¬ x = a := fun he => h (he ▸ List.mem_cons_self a t)
    have h2 : x ∉ t := fun ht => h (List.mem_cons_of_mem a ht)
    have hpa : (a != x) = true := by
      simp only [bne_iff_ne, ne_eq]
      exact fun he => h1 he.symm
    simp [List.takeWhile_cons, hpa, ih h2]

theorem extract_domain_of_split (url : PyStr) (p : SplitResult)
    (h : urlsplitPy url = Except.ok p) :
    extract_domain url =
      Except.ok ((pyLower p.netloc).takeWhile (fun c => c != 0x3A)) := by
  unfold extract_domain
  rw [h, exceptBind_ok]
  split
  · rfl
  · rename_i hmem
    rw [takeWhile_ne_of_not_mem (pyLower p.netloc) 0x3A (by simpa using hmem)]
    rfl

/-! ## C9 -/

/-- C9: `check_url_safety("")` classifies the empty string through the full
rule set and returns `safe = false`, exactly the non-HTTPS warning, and
risk level `medium`. -/
theorem c9_empty_input_full_ruleset :
    check_url_safety (pyStr "") =
      Except.ok ⟨false, [Warning.nonHttps], Risk.medium⟩ := rfl

/-! ## C10 -/

/-- C10: `to_unicode_domain` returns its input unchanged whenever the input
contains a non-ASCII character (IDNA decoding is attempted only on
pure-ASCII strings), and any decoding failure also falls back to the
original string; the function is total. -/
theorem c10_to_unicode_domain_fallback (s : PyStr) :
    ((∃ c ∈ s, 0x80 ≤ c) → to_unicode_domain s = s) ∧
    (idnaDecode s = none → to_unicode_domain s = s) := by
  constructor
  · rintro ⟨c, hc, hge⟩
    have ha : allAscii s = false := by
      unfold allAscii
      rw [List.all_eq_false]
      exact ⟨c, hc, by simpa using hge⟩
    unfold to_unicode_domain
    simp [ha]
  · intro hd
    unfold to_unicode_domain
    by_cases ha : allAscii s = true
    · simp [ha, hd]
    · simp [ha]

/-- Witness for C10 at concrete inputs: a non-ASCII domain passes through,
and the undecodable all-ASCII label `xn--` falls back unchanged. -/
theorem c10_witness :
    to_unicode_domain (pyStr "é") = pyStr "é" ∧
    to_unicode_domain (pyStr "xn--") = pyStr "xn--" :=
  ⟨(c10_to_unicode_domain_fallback (pyStr "é")).1 ⟨0xE9, by decide, by decide⟩,
   (c10_to_unicode_domain_fallback (pyStr "xn--")).2 rfl⟩

/-! ## C6 -/

/-- C6 (amended): `has_suspicious_unicode` is true iff the decoded domain
contains a code point in the Cyrillic block U+0400–U+04FF or in the
lower-case Greek letter range U+03B1–U+03C9; upper-case Greek letters are
not matched. -/
theorem c6_suspicious_unicode_ranges (domain : PyStr) :
    has_suspicious_unicode domain = true ↔
      ∃ c ∈ to_unicode_domain domain,
        (0x400 ≤ c ∧ c ≤ 0x4FF) ∨ (0x3B1 ≤ c ∧ c ≤ 0x3C9) := by
  unfold has_suspicious_unicode
  rw [List.any_eq_true]
  constructor
  · rintro ⟨c, hc, hp⟩
    exact ⟨c, hc, by simpa using hp⟩
  · rintro ⟨c, hc, hp⟩
    exact ⟨c, hc, by simpa using hp⟩

/-- Counterexample for C6 as stated: `Δ` (U+0394) is a Greek code point of
upper case, the decoded domain `Δ.com` contains it, yet
`has_suspicious_unicode` returns false. -/
theorem c6_counterexample :
    to_unicode_domain (pyStr "Δ.com") = pyStr "Δ.com" ∧
    (0x394 ∈ pyStr "Δ.com" ∧ 0x370 ≤ 0x394 ∧ 0x394 ≤ 0x3FF) ∧
    has_suspicious_unicode (pyStr "Δ.com") = false :=
  ⟨rfl, ⟨by decide, by decide, by decide⟩, rfl⟩

/-! ## C5 -/

/-- C5 (amended): only the genuinely empty input normalizes to the empty
string; a nonempty whitespace-only input strips to nothing and normalizes
to the scheme-only remnant `https://`, not to an empty result.  Neither
case is an error. -/
theorem c5_empty_and_whitespace (s : PyStr) :
    normalize_url [] = Except.ok [] ∧
    (s ≠ [] → (∀ c ∈ s, pyIsSpace c = true) →
      normalize_url s = Except.ok (pyStr "https://")) := by
  refine ⟨rfl, fun hne hsp => ?_⟩
  have h1 : s.dropWhile pyIsSpace = [] := by
    rw [List.dropWhile_eq_nil_iff]
    exact hsp
  have hstrip : pyStrip s = [] := by
    unfold pyStrip
    rw [h1]
    rfl
  unfold normalize_url
  rw [if_neg hne]
  rw [hstrip]
  rfl

/-- Counterexample for C5 as stated: the single-space input is
whitespace-only but normalizes to `https://`, which is not empty. -/
theorem c5_counterexample :
    normalize_url (pyStr " ") = Except.ok (pyStr "https://") ∧
    (pyStr "https://" : PyStr) ≠ [] := ⟨rfl, by decide⟩

/-- Witness for C5 at a concrete whitespace-only input. -/
theorem c5_witness : normalize_url (pyStr "\t ") = Except.ok (pyStr "https://") :=
  (c5_empty_and_whitespace (pyStr "\t ")).2 (by decide) (by decide)

/-! ## C7 -/

/-- C7 (amended): `extract_domain` returns the lower-cased netloc cut at
its first colon — which strips a `:port` from ordinary and IPv4 hosts, but
truncates a bracketed IPv6 host at the colon inside the brackets — and the
empty string when no host is present. -/
theorem c7_first_colon_truncation (url : PyStr) (p : SplitResult)
    (h : urlsplitPy url = Except.ok p) :
    extract_domain url =
      Except.ok ((pyLower p.netloc).takeWhile (fun c => c != 0x3A)) ∧
    (p.netloc = [] → extract_domain url = Except.ok []) :=
  ⟨extract_domain_of_split url p h,
   fun hn => by rw [extract_domain_of_split url p h, hn]; rfl⟩

/-- Counterexample for C7 as stated: for the bracketed IPv6 host `[::1]`
with a port, the returned domain is `[` — not the host with the port
removed in either bracketed or bare form. -/
theorem c7_counterexample :
    extract_domain (pyStr "https://[::1]:8080/") = Except.ok (pyStr "[") ∧
    (pyStr "[" : PyStr) ≠ pyStr "[::1]" ∧ (pyStr "[" : PyStr) ≠ pyStr "::1" :=
  ⟨rfl, by decide, by decide⟩

/-- Witness for C7 at a concrete URL with a cased host and a port. -/
theorem c7_witness :
    extract_domain (pyStr "https://Example.com:8080/x") =
      Except.ok (pyStr "example.com") :=
  (c7_first_colon_truncation (pyStr "https://Example.com:8080/x")
    ⟨pyStr "https", pyStr "Example.com:8080", pyStr "/x", [], []⟩ rfl).1

/-! ## C2 -/

/-- C2: every report `check_url_safety` returns satisfies
`safe ↔ warnings = []`, and the risk level is the pure bucket function of
the warning count: `low` at zero, `medium` at one or two, `high` at three
or more. -/
theorem c2_risk_pure_function_of_count (url : PyStr) (r : SecurityReport)
    (h : check_url_safety url = Except.ok r) :
    (r.safe = true ↔ r.warnings = []) ∧
    r.risk_level = (if r.warnings.length = 0 then Risk.low
      else if r.warnings.length ≤ 2 then Risk.medium else Risk.high) := by
  unfold check_url_safety at h
  cases hn : normalize_url url with
  | error e => rw [hn, exceptBind_error] at h; exact absurd h (by simp)
  | ok v =>
    rw [hn] at h
    simp only [exceptBind_ok] at h
    cases hp : urlsplitPy v with
    | error e => rw [hp, exceptBind_error] at h; exact absurd h (by simp)
    | ok pr =>
      rw [hp] at h
      simp only [exceptBind_ok] at h
      cases hd : extract_domain v with
      | error e => rw [hd, exceptBind_error] at h; exact absurd h (by simp)
      | ok d =>
        rw [hd] at h
        simp only [exceptBind_ok] at h
        have hr := Except.ok.inj h
        subst hr
        constructor
        · generalize (if pr.scheme ≠ pyStr "https" then [Warning.nonHttps] else []) ++
            (if is_ip_address d then [Warning.ipHost] else []) ++
            (if v.length > 150 then [Warning.tooLong] else []) ++
            _check_keywords (pyLower v) ++ _check_redirects (pyLower v) ++
            _check_query_params pr.query ++ _check_domain_spoof d = ws
          cases ws <;> simp
        · generalize (if pr.scheme ≠ pyStr "https" then [Warning.nonHttps] else []) ++
            (if is_ip_address d then [Warning.ipHost] else []) ++
            (if v.length > 150 then [Warning.tooLong] else []) ++
            _check_keywords (pyLower v) ++ _check_redirects (pyLower v) ++
            _check_query_params pr.query ++ _check_domain_spoof d = ws
          dsimp only
          unfold _assess_risk
          rcases eq_or_ne ws [] with hw | hw
          · subst hw; simp
          · rw [if_neg hw]
            have hlen : ¬ ws.length = 0 := by simpa [List.length_eq_zero] using hw
            rw [if_neg hlen]

/-! ## C1 -/

theorem normalize_url_error_source (url : PyStr) (e : ParseErr)
    (h : normalize_url url = Except.error e) :
    urlsplitPy (pyStrip url) = Except.error e ∨
    e = ParseErr.unicodeEncodeError := by
  unfold normalize_url at h
  by_cases hu : url = []
  · rw [if_pos hu] at h
    exact Except.noConfusion h
  · rw [if_neg hu] at h
    cases hp : urlsplitPy (pyStrip url) with
    | error e2 =>
      rw [hp, exceptBind_error] at h
      exact Or.inl (by rw [Except.error.inj h])
    | ok p =>
      rw [hp] at h
      simp only [exceptBind_ok] at h
      cases hq : pyQuoteStrict (pyUnquote (if p.netloc = [] then [] else p.path)) with
      | error e3 =>
        rw [hq, exceptBind_error] at h
        right
        have he : e3 = e := Except.error.inj h
        unfold pyQuoteStrict at hq
        by_cases hall : (pyUnquote (if p.netloc = [] then [] else p.path)).all
            utf8Encodable = true
        · rw [if_pos hall] at hq
          exact absurd hq (by simp)
        · rw [if_neg hall] at hq
          rw [← he]
          exact (Except.error.inj hq).symm
      | ok sp =>
        rw [hq] at h
        simp only [exceptBind_ok] at h
        exact Except.noConfusion h

/-- C1 (amended): for every input, `check_url_safety` either returns a
well-formed report (`safe` mirrors emptiness of the warnings and the risk
level is the aggregation of the warnings), or propagates a `ValueError`:
one that `urlsplit` raises — on the stripped raw input or on the
normalized URL — for unbalanced brackets, invalid bracketed hosts or
NFKC-unsafe authorities, or the `UnicodeEncodeError` (a `ValueError`
subclass) that `quote` raises when the unquoted path contains an unpaired
surrogate.  Malformed inputs such as `http://[::1` raise instead of
yielding a report (see the counterexample). -/
theorem c1_report_or_valueerror (url : PyStr) :
    (∃ r, check_url_safety url = Except.ok r ∧ r.safe = r.warnings.isEmpty ∧
      r.risk_level = _assess_risk r.warnings) ∨
    (∃ e, check_url_safety url = Except.error e ∧
      (urlsplitPy (pyStrip url) = Except.error e ∨
       e = ParseErr.unicodeEncodeError ∨
       ∃ v, normalize_url url = Except.ok v ∧ urlsplitPy v = Except.error e)) := by
  unfold check_url_safety
  cases hn : normalize_url url with
  | error e =>
    right
    refine ⟨e, by rw [exceptBind_error], ?_⟩
    rcases normalize_url_error_source url e hn with h | h
    · exact Or.inl h
    · exact Or.inr (Or.inl h)
  | ok v =>
    simp only [exceptBind_ok]
    cases hp : urlsplitPy v with
    | error e =>
      right
      exact ⟨e, by rw [exceptBind_error], Or.inr (Or.inr ⟨v, rfl, hp⟩)⟩
    | ok pr =>
      simp only [exceptBind_ok]
      rw [extract_domain_of_split v pr hp]
      simp only [exceptBind_ok]
      left
      exact ⟨_, rfl, rfl, rfl⟩

/-- Counterexample for C1 as stated: on the malformed bracketed host
`http://[::1` the classifier raises `ValueError: Invalid IPv6 URL`, and on
a path holding an unpaired surrogate it raises the `UnicodeEncodeError`
from `quote` — in neither case does it yield a report. -/
theorem c1_counterexample :
    check_url_safety (pyStr "http://[::1") =
      Except.error ParseErr.invalidIPv6URL ∧
    check_url_safety (pyStr "http://x/" ++ [0xD800]) =
      Except.error ParseErr.unicodeEncodeError :=
  ⟨rfl, rfl⟩

/-! ## C4 support: list facts -/

theorem mem_of_mem_dropWhileP {p : Nat → Bool} {l : PyStr} {c : Nat}
    (h : c ∈ l.dropWhile p) : c ∈ l :=
  (List.dropWhile_sublist p (l := l)).mem h

theorem mem_of_mem_takeWhileP {p : Nat → Bool} {l : PyStr} {c : Nat}
    (h : c ∈ l.takeWhile p) : c ∈ l :=
  (List.takeWhile_sublist p (l := l)).mem h

theorem takeWhile_append_full (p : Nat → Bool) (xs ys : PyStr)
    (hxs : ∀ c ∈ xs, p c = true)
    (hys : ys = [] ∨ p (ys.headD 0) = false) :
    (xs ++ ys).takeWhile p = xs := by
  induction xs with
  | nil =>
    rcases hys with h | h
    · rw [h]; rfl
    · cases ys with
      | nil => rfl
      | cons y t =>
        simp only [List.headD_cons] at h
        rw [List.nil_append, List.takeWhile_cons_of_neg (by rw [h]; exact Bool.false_ne_true)]
  | cons a t ih =>
    have ha : p a = true := hxs a (List.mem_cons_self a t)
    rw [List.cons_append, List.takeWhile_cons_of_pos ha,
        ih (fun c hc => hxs c (List.mem_cons_of_mem a hc))]

theorem dropWhile_append_full (p : Nat → Bool) (xs ys : PyStr)
    (hxs : ∀ c ∈ xs, p c = true)
    (hys : ys = [] ∨ p (ys.headD 0) = false) :
    (xs ++ ys).dropWhile p = ys := by
  induction xs with
  | nil =>
    rcases hys with h | h
    · rw [h]; rfl
    · cases ys with
      | nil => rfl
      | cons y t =>
        simp only [List.headD_cons] at h
        rw [List.nil_append, List.dropWhile_cons_of_neg (by rw [h]; exact Bool.false_ne_true)]
  | cons a t ih =>
    have ha : p a = true := hxs a (List.mem_cons_self a t)
    rw [List.cons_append, List.dropWhile_cons_of_pos ha,
        ih (fun c hc => hxs c (List.mem_cons_of_mem a hc))]

theorem findIdx_first_colon (s rest : PyStr) (h : ∀ c ∈ s, c ≠ 0x3A) :
    ∀ i, List.findIdx? (fun c => c == 0x3A) (s ++ 0x3A :: rest) i =
      some (s.length + i) := by
  induction s with
  | nil =>
    intro i
    rw [List.nil_append, List.findIdx?_cons]
    simp
  | cons a t ih =>
    intro i
    rw [List.cons_append, List.findIdx?_cons,
        if_neg (by simpa using h a (List.mem_cons_self a t)),
        ih (fun c hc => h c (List.mem_cons_of_mem a hc)) (i + 1)]
    congr 1
    simp only [List.length_cons]
    omega

/-! ## C4 support: character classes -/

theorem isSchemeChar_props {c : Nat} (h : isSchemeChar c = true) :
    c ≠ 0x3A ∧ c ≠ 9 ∧ c ≠ 10 ∧ c ≠ 13 ∧ ¬ c ≤ 0x20 := by
  simp only [isSchemeChar, isAsciiAlpha, isAsciiUpper, isAsciiLower, isAsciiDigit,
    Bool.or_eq_true, decide_eq_true_iff, beq_iff_eq] at h
  omega

theorem isAsciiAlpha_range {c : Nat} (h : isAsciiAlpha c = true) :
    0x41 ≤ c ∧ c ≤ 0x7A := by
  simp only [isAsciiAlpha, isAsciiUpper, isAsciiLower, Bool.or_eq_true,
    decide_eq_true_iff] at h
  omega

theorem pyLower1_schemeChar {c : Nat} (h : isSchemeChar c = true) :
    isSchemeChar (pyLower1 c) = true := by
  simp only [isSchemeChar, isAsciiAlpha, isAsciiUpper, isAsciiLower, isAsciiDigit,
    Bool.or_eq_true, decide_eq_true_iff, beq_iff_eq] at h ⊢
  unfold pyLower1
  simp only [isAsciiUpper, decide_eq_true_iff]
  split_ifs <;> omega

theorem pyLower1_fix {x : Nat}
    (h : ¬ (0x41 ≤ x ∧ x ≤ 0x5A) ∧ ¬ (0xC0 ≤ x ∧ x ≤ 0xDE ∧ x ≠ 0xD7) ∧
         ¬ (0x391 ≤ x ∧ x ≤ 0x3AB ∧ x ≠ 0x3A2) ∧ ¬ (0x400 ≤ x ∧ x ≤ 0x40F) ∧
         ¬ (0x410 ≤ x ∧ x ≤ 0x42F)) : pyLower1 x = x := by
  unfold pyLower1
  simp only [isAsciiUpper, decide_eq_true_iff]
  rw [if_neg h.1, if_neg h.2.1, if_neg h.2.2.1, if_neg h.2.2.2.1, if_neg h.2.2.2.2]

theorem pyLower1_idem {c : Nat} : pyLower1 (pyLower1 c) = pyLower1 c := by
  by_cases h1 : 0x41 ≤ c ∧ c ≤ 0x5A
  · have hv : pyLower1 c = c + 0x20 := by
      unfold pyLower1
      simp only [isAsciiUpper, decide_eq_true_iff]
      rw [if_pos h1]
    rw [hv]
    exact pyLower1_fix (by omega)
  · by_cases h2 : 0xC0 ≤ c ∧ c ≤ 0xDE ∧ c ≠ 0xD7
    · have hv : pyLower1 c = c + 0x20 := by
        unfold pyLower1
        simp only [isAsciiUpper, decide_eq_true_iff]
        rw [if_neg h1, if_pos h2]
      rw [hv]
      exact pyLower1_fix (by omega)
    · by_cases h3 : 0x391 ≤ c ∧ c ≤ 0x3AB ∧ c ≠ 0x3A2
      · have hv : pyLower1 c = c + 0x20 := by
          unfold pyLower1
          simp only [isAsciiUpper, decide_eq_true_iff]
          rw [if_neg h1, if_neg h2, if_pos h3]
        rw [hv]
        exact pyLower1_fix (by omega)
      · by_cases h4 : 0x400 ≤ c ∧ c ≤ 0x40F
        · have hv : pyLower1 c = c + 0x50 := by
            unfold pyLower1
            simp only [isAsciiUpper, decide_eq_true_iff]
            rw [if_neg h1, if_neg h2, if_neg h3, if_pos h4]
          rw [hv]
          exact pyLower1_fix (by omega)
        · by_cases h5 : 0x410 ≤ c ∧ c ≤ 0x42F
          · have hv : pyLower1 c = c + 0x20 := by
              unfold pyLower1
              simp only [isAsciiUpper, decide_eq_true_iff]
              rw [if_neg h1, if_neg h2, if_neg h3, if_neg h4, if_pos h5]
            rw [hv]
            exact pyLower1_fix (by omega)
          · have hv : pyLower1 c = c := pyLower1_fix ⟨h1, h2, h3, h4, h5⟩
            rw [hv, hv]

theorem pyLower1_alpha {c : Nat} (h : isAsciiAlpha c = true) :
    isAsciiAlpha (pyLower1 c) = true := by
  simp only [isAsciiAlpha, isAsciiUpper, isAsciiLower, Bool.or_eq_true,
    decide_eq_true_iff] at h ⊢
  unfold pyLower1
  simp only [isAsciiUpper, decide_eq_true_iff]
  split_ifs <;> omega

/-! ## C4 support: quoted paths -/

theorem hexUp_range (n : Nat) :
    (0x30 ≤ hexUp n ∧ hexUp n ≤ 0x39) ∨ 0x41 ≤ hexUp n := by
  unfold hexUp
  split_ifs <;> omega

theorem pyQuote_chars (s : PyStr) :
    ∀ c ∈ pyQuote s, isQuoteSafeByte c = true ∨ c = 0x25 ∨
      (0x30 ≤ c ∧ c ≤ 0x39) ∨ 0x41 ≤ c := by
  unfold pyQuote
  intro c hc
  rw [List.mem_flatten] at hc
  obtain ⟨l, hl, hcl⟩ := hc
  rw [List.mem_map] at hl
  obtain ⟨b, _, rfl⟩ := hl
  by_cases hs : isQuoteSafeByte b = true
  · rw [if_pos hs] at hcl
    rw [List.mem_singleton] at hcl
    subst hcl
    exact Or.inl hs
  · rw [if_neg hs] at hcl
    simp only [List.mem_cons, List.mem_singleton, List.not_mem_nil, or_false] at hcl
    rcases hcl with h | h | h
    · exact Or.inr (Or.inl h)
    · subst h
      rcases hexUp_range (b / 16) with h | h
      · exact Or.inr (Or.inr (Or.inl h))
      · exact Or.inr (Or.inr (Or.inr h))
    · subst h
      rcases hexUp_range (b % 16) with h | h
      · exact Or.inr (Or.inr (Or.inl h))
      · exact Or.inr (Or.inr (Or.inr h))

theorem pyQuote_no_specials (s : PyStr) :
    ∀ c ∈ pyQuote s, c ≠ 0x23 ∧ c ≠ 0x3F ∧ c ≠ 9 ∧ c ≠ 10 ∧ c ≠ 13 := by
  intro c hc
  rcases pyQuote_chars s c hc with h | h | h | h
  · simp only [isQuoteSafeByte, isAsciiAlpha, isAsciiUpper, isAsciiLower,
      isAsciiDigit, Bool.or_eq_true, decide_eq_true_iff, beq_iff_eq] at h
    omega
  · omega
  · omega
  · omega

/-! ## C4 support: membership and the scheme splitter -/

theorem contains_true_of_mem {l : PyStr} {x : Nat} (h : x ∈ l) :
    l.contains x = true := by
  simpa using h

theorem contains_false_of_not_mem {l : PyStr} {x : Nat} (h : x ∉ l) :
    l.contains x = false := by
  rw [Bool.eq_false_iff]
  intro hc
  exact h (by simpa using hc)

theorem pyLower_idem (s : PyStr) : pyLower (pyLower s) = pyLower s := by
  unfold pyLower
  rw [List.map_map]
  exact List.map_congr_left (fun c _ => pyLower1_idem)

theorem pyLower_schemeChars {s : PyStr} (h : s.all isSchemeChar = true) :
    (pyLower s).all isSchemeChar = true := by
  unfold pyLower
  rw [List.all_map]
  rw [List.all_eq_true] at h ⊢
  exact fun c hc => pyLower1_schemeChar (h c hc)

theorem splitScheme_prefix (s rest : PyStr)
    (hs : s ≠ []) (hall : s.all isSchemeChar = true)
    (hhead : isAsciiAlpha (s.headD 0) = true)
    (hlow : pyLower s = s) :
    splitScheme (s ++ 0x3A :: rest) = (s, rest) := by
  obtain ⟨a, t, rfl⟩ : ∃ a t, s = a :: t := by
    cases s with
    | nil => exact absurd rfl hs
    | cons a t => exact ⟨a, t, rfl⟩
  have hhead' : isAsciiAlpha a = true := hhead
  have hnc : ∀ c ∈ a :: t, c ≠ 0x3A := by
    rw [List.all_eq_true] at hall
    exact fun c hc => (isSchemeChar_props (hall c hc)).1
  have htake : ((a :: t) ++ 0x3A :: rest).take ((a :: t).length + 0) = a :: t := by
    rw [Nat.add_zero]
    exact List.take_left (a :: t) (0x3A :: rest)
  have hdrop : ((a :: t) ++ 0x3A :: rest).drop ((a :: t).length + 0 + 1) = rest := by
    have h0 : (a :: t) ++ 0x3A :: rest = ((a :: t) ++ [0x3A]) ++ rest := by simp
    have h1 : ((a :: t) ++ [0x3A]).length = (a :: t).length + 0 + 1 := by simp
    rw [h0, ← h1]
    exact List.drop_left ((a :: t) ++ [0x3A]) rest
  unfold splitScheme
  split
  · rename_i i hi
    rw [findIdx_first_colon (a :: t) rest hnc 0] at hi
    obtain hieq := Option.some.inj hi
    subst hieq
    split
    · rw [htake, hlow, hdrop]
    · rename_i hneg
      exfalso
      apply hneg
      show (decide (0 < (a :: t).length + 0) && isAsciiAlpha a &&
        (((a :: t) ++ 0x3A :: rest).take ((a :: t).length + 0)).all isSchemeChar) = true
      rw [htake]
      simp only [Bool.and_eq_true, decide_eq_true_iff]
      exact ⟨⟨by simp, hhead'⟩, hall⟩
  · rename_i hi
    rw [findIdx_first_colon (a :: t) rest hnc 0] at hi
    exact Option.noConfusion hi

theorem splitScheme_snd_mem (u : PyStr) : ∀ c ∈ (splitScheme u).2, c ∈ u := by
  unfold splitScheme
  split
  · split
    · intro c hc
      exact List.mem_of_mem_drop hc
    · intro c hc
      exact hc
  · intro c hc
    exact hc

theorem splitScheme_fst_props (u : PyStr) :
    (splitScheme u).1 = [] ∨
    ((splitScheme u).1 ≠ [] ∧ (splitScheme u).1.all isSchemeChar = true ∧
     isAsciiAlpha ((splitScheme u).1.headD 0) = true ∧
     pyLower (splitScheme u).1 = (splitScheme u).1) := by
  unfold splitScheme
  split
  · rename_i i hi
    split
    · rename_i hcond
      right
      simp only [Bool.and_eq_true, decide_eq_true_iff] at hcond
      obtain ⟨⟨hipos, hhd⟩, hall⟩ := hcond
      cases u with
      | nil => exact Option.noConfusion hi
      | cons a t =>
        obtain ⟨j, rfl⟩ : ∃ j, i = j + 1 := ⟨i - 1, by omega⟩
        have hhd' : isAsciiAlpha a = true := hhd
        rw [List.take_succ_cons] at hall ⊢
        refine ⟨by simp [pyLower], ?_, ?_, ?_⟩
        · exact pyLower_schemeChars hall
        · exact pyLower1_alpha hhd'
        · exact pyLower_idem (a :: t.take j)
    · left
      rfl
  · left
    rfl

/-! ## C4 support: the authority and fragment/query splitters -/

theorem splitAuthority_roundtrip (n tail : PyStr)
    (hn : ∀ c ∈ n, (c != 0x2F && c != 0x3F && c != 0x23) = true)
    (ht : tail = [] ∨ (tail.headD 0 = 0x2F ∨ tail.headD 0 = 0x3F))
    (hchk : netlocChecks n = Except.ok ()) :
    splitAuthority (0x2F :: 0x2F :: (n ++ tail)) = Except.ok (n, tail) := by
  have hTW : ((0x2F :: 0x2F :: (n ++ tail)).drop 2).takeWhile
      (fun c => c != 0x2F && c != 0x3F && c != 0x23) = n := by
    show (n ++ tail).takeWhile (fun c => c != 0x2F && c != 0x3F && c != 0x23) = n
    apply takeWhile_append_full _ n tail hn
    rcases ht with h | h
    · exact Or.inl h
    · right
      rcases h with h | h
      · show ((tail.headD 0) != 0x2F && (tail.headD 0) != 0x3F &&
          (tail.headD 0) != 0x23) = false
        rw [h]
        decide
      · show ((tail.headD 0) != 0x2F && (tail.headD 0) != 0x3F &&
          (tail.headD 0) != 0x23) = false
        rw [h]
        decide
  have hDR : ((0x2F :: 0x2F :: (n ++ tail)).drop 2).drop n.length = tail := by
    show (n ++ tail).drop n.length = tail
    exact List.drop_left n tail
  unfold splitAuthority
  rw [if_pos (show (0x2F :: 0x2F :: (n ++ tail)).take 2 = pyStr "//" from rfl)]
  split
  · rename_i val hval
    rw [hTW, hDR]
  · rename_i e he
    rw [hTW, hchk] at he
    exact Except.noConfusion he

theorem splitAuthority_ok_props (u nl r : PyStr)
    (h : splitAuthority u = Except.ok (nl, r)) :
    (∀ c ∈ nl, c ∈ u ∧ (c != 0x2F && c != 0x3F && c != 0x23) = true) ∧
    netlocChecks nl = Except.ok () ∧ (∀ c ∈ r, c ∈ u) := by
  unfold splitAuthority at h
  split at h
  · split at h
    · rename_i val hval
      have hpair := Except.ok.inj h
      injection hpair with h1 h2
      subst h1
      subst h2
      refine ⟨?_, ?_, ?_⟩
      · intro c hc
        have hpred := List.mem_takeWhile_imp hc
        exact ⟨List.mem_of_mem_drop (mem_of_mem_takeWhileP hc), hpred⟩
      · cases val
        exact hval
      · intro c hc
        exact List.mem_of_mem_drop (List.mem_of_mem_drop hc)
    · exact Except.noConfusion h
  · have hpair := Except.ok.inj h
    injection hpair with h1 h2
    subst h1
    subst h2
    refine ⟨?_, rfl, ?_⟩
    · intro c hc
      exact absurd hc (List.not_mem_nil c)
    · intro c hc
      exact hc

theorem splitFragment_fst_facts (u : PyStr) :
    ∀ c ∈ (splitFragment u).1, c ∈ u ∧ c ≠ 0x23 := by
  unfold splitFragment
  split
  · intro c hc
    refine ⟨mem_of_mem_takeWhileP hc, ?_⟩
    have := List.mem_takeWhile_imp (show c ∈ u.takeWhile (fun x => x != 0x23) from hc)
    simpa using this
  · rename_i hcont
    intro c hc
    refine ⟨hc, ?_⟩
    intro he
    subst he
    exact hcont (contains_true_of_mem hc)

theorem splitQuery_snd_mem (u : PyStr) : ∀ c ∈ (splitQuery u).2, c ∈ u := by
  unfold splitQuery
  split
  · intro c hc
    exact mem_of_mem_dropWhileP (List.mem_of_mem_drop hc)
  · intro c hc
    exact absurd hc (List.not_mem_nil c)

theorem splitFragmentQuery_query_facts (u : PyStr) :
    ∀ c ∈ (splitFragmentQuery u).2.1, c ∈ u ∧ c ≠ 0x23 := by
  intro c hc
  have h1 : c ∈ (splitFragment u).1 := splitQuery_snd_mem (splitFragment u).1 c hc
  exact splitFragment_fst_facts u c h1

theorem splitFragmentQuery_roundtrip (sp q : PyStr)
    (hsp : ∀ c ∈ sp, c ≠ 0x23 ∧ c ≠ 0x3F)
    (hq : ∀ c ∈ q, c ≠ 0x23) :
    splitFragmentQuery (sp ++ (if q = [] then [] else 0x3F :: q)) = (sp, q, []) := by
  by_cases hq0 : q = []
  · subst hq0
    rw [if_pos rfl, List.append_nil]
    have h23 : sp.contains 0x23 = false :=
      contains_false_of_not_mem (fun hm => (hsp _ hm).1 rfl)
    have h3F : sp.contains 0x3F = false :=
      contains_false_of_not_mem (fun hm => (hsp _ hm).2 rfl)
    have hF : splitFragment sp = (sp, []) := by
      unfold splitFragment
      rw [if_neg (by rw [h23]; exact Bool.false_ne_true)]
    have hQ : splitQuery sp = (sp, []) := by
      unfold splitQuery
      rw [if_neg (by rw [h3F]; exact Bool.false_ne_true)]
    unfold splitFragmentQuery
    simp only [hF, hQ]
  · rw [if_neg hq0]
    have hnm23 : (0x23 : Nat) ∉ sp ++ 0x3F :: q := by
      intro hm
      rcases List.mem_append.mp hm with h | h
      · exact (hsp _ h).1 rfl
      · rcases List.mem_cons.mp h with h | h
        · exact absurd h (by decide)
        · exact (hq _ h) rfl
    have h23 : (sp ++ 0x3F :: q).contains 0x23 = false :=
      contains_false_of_not_mem hnm23
    have hF : splitFragment (sp ++ 0x3F :: q) = (sp ++ 0x3F :: q, []) := by
      unfold splitFragment
      rw [if_neg (by rw [h23]; exact Bool.false_ne_true)]
    have h3F : (sp ++ 0x3F :: q).contains 0x3F = true :=
      contains_true_of_mem (List.mem_append.mpr (Or.inr (List.mem_cons_self _ _)))
    have hTW : (sp ++ 0x3F :: q).takeWhile (fun x => x != 0x3F) = sp := by
      apply takeWhile_append_full
      · intro c hc
        simp only [bne_iff_ne, ne_eq]
        exact (hsp c hc).2
      · right
        simp
    have hDW : (sp ++ 0x3F :: q).dropWhile (fun x => x != 0x3F) = 0x3F :: q := by
      apply dropWhile_append_full
      · intro c hc
        simp only [bne_iff_ne, ne_eq]
        exact (hsp c hc).2
      · right
        simp
    have hQ : splitQuery (sp ++ 0x3F :: q) = (sp, q) := by
      unfold splitQuery splitFirst
      rw [if_pos h3F, hTW, hDW]
      rfl
    unfold splitFragmentQuery
    simp only [hF, hQ]

/-! ## C4 support: whole-URL facts -/

theorem urlPrep_mem (u : PyStr) : ∀ c ∈ urlPrep u, c ≠ 9 ∧ c ≠ 10 ∧ c ≠ 13 := by
  intro c hc
  unfold urlPrep at hc
  have hpred := (List.mem_filter.mp hc).2
  simp only [bne_iff_ne, ne_eq, Bool.and_eq_true] at hpred
  exact ⟨hpred.1.1, hpred.1.2, hpred.2⟩

theorem urlPrep_eq_self (v : PyStr) (h9 : ∀ c ∈ v, c ≠ 9 ∧ c ≠ 10 ∧ c ≠ 13)
    (hh : v = [] ∨ ¬ (v.headD 0 ≤ 0x20)) : urlPrep v = v := by
  unfold urlPrep
  have hd : v.dropWhile (fun c => decide (c ≤ 0x20)) = v := by
    rcases hh with h | h
    · rw [h]
      rfl
    · cases v with
      | nil => rfl
      | cons a t =>
        exact List.dropWhile_cons_of_neg (by simpa using h)
  rw [hd, List.filter_eq_self.mpr]
  intro c hc
  have h3 := h9 c hc
  simp only [bne_iff_ne, ne_eq, Bool.and_eq_true]
  exact ⟨⟨h3.1, h3.2.1⟩, h3.2.2⟩

theorem urlsplitPy_ok_components (url : PyStr) (p : SplitResult)
    (h : urlsplitPy url = Except.ok p) :
    (p.scheme = [] ∨ (p.scheme ≠ [] ∧ p.scheme.all isSchemeChar = true ∧
       isAsciiAlpha (p.scheme.headD 0) = true ∧ pyLower p.scheme = p.scheme)) ∧
    (∀ c ∈ p.netloc, (c != 0x2F && c != 0x3F && c != 0x23) = true ∧
       c ≠ 9 ∧ c ≠ 10 ∧ c ≠ 13) ∧
    checknetlocOk p.netloc = true ∧
    netlocChecks p.netloc = Except.ok () ∧
    (∀ c ∈ p.query, c ≠ 0x23 ∧ c ≠ 9 ∧ c ≠ 10 ∧ c ≠ 13) := by
  unfold urlsplitPy at h
  cases hA : splitAuthority (splitScheme (urlPrep url)).2 with
  | error e =>
    rw [hA, exceptBind_error] at h
    exact Except.noConfusion h
  | ok nl =>
    rw [hA] at h
    simp only [exceptBind_ok] at h
    obtain ⟨nl1, nl2⟩ := nl
    obtain ⟨hprops, hchk, hrest⟩ := splitAuthority_ok_props _ nl1 nl2 hA
    split at h
    · rename_i hok
      have hp := Except.ok.inj h
      subst hp
      refine ⟨splitScheme_fst_props (urlPrep url), ?_, hok, hchk, ?_⟩
      · intro c hc
        obtain ⟨hm, hpred⟩ := hprops c hc
        have hctl := urlPrep_mem url c (splitScheme_snd_mem (urlPrep url) c hm)
        exact ⟨hpred, hctl⟩
      · intro c hc
        obtain ⟨hm, h23⟩ := splitFragmentQuery_query_facts nl2 c hc
        have hctl := urlPrep_mem url c
          (splitScheme_snd_mem (urlPrep url) c (hrest c hm))
        exact ⟨h23, hctl⟩
    · exact Except.noConfusion h

theorem urlunsplit_explicit (s n sp q : PyStr) (hs0 : s ≠ []) (hn0 : n ≠ [])
    (hsp0 : sp = [] ∨ sp.headD 0 = 0x2F) :
    urlunsplitPy s n sp q [] =
      s ++ 0x3A :: 0x2F :: 0x2F ::
        (n ++ (sp ++ (if q = [] then [] else 0x3F :: q))) := by
  have hbase : urlunsplitBase s n sp = 0x2F :: 0x2F :: (n ++ sp) := by
    unfold urlunsplitBase
    rw [if_pos (Or.inl hn0)]
    have hpath : (if sp ≠ [] ∧ sp.take 1 ≠ [0x2F] then 0x2F :: sp else sp) = sp := by
      rcases hsp0 with h | h
      · rw [if_neg (fun hc => hc.1 h)]
      · cases sp with
        | nil => rw [if_neg (fun hc => hc.1 rfl)]
        | cons a t =>
          have ha : a = 0x2F := h
          rw [if_neg (fun hc => hc.2 (by rw [ha]; rfl))]
    rw [hpath]
    rfl
  have hsch : unsplitAddScheme s (0x2F :: 0x2F :: (n ++ sp)) =
      s ++ 0x3A :: 0x2F :: 0x2F :: (n ++ sp) := by
    unfold unsplitAddScheme
    rw [if_pos hs0]
  unfold urlunsplitPy
  rw [hbase, hsch]
  unfold unsplitAddFragment
  rw [if_neg (fun hc => hc rfl)]
  by_cases hq0 : q = []
  · rw [if_pos hq0]
    unfold unsplitAddQuery
    rw [if_neg (fun hc => hc hq0), List.append_nil]
  · rw [if_neg hq0]
    unfold unsplitAddQuery
    rw [if_pos hq0]
    simp [List.append_assoc]

/-- Splitting the reassembled URL recovers the components: under the
invariants the first pass establishes (scheme-shaped lower-case scheme,
nonempty delimiter-free netloc passing the bracket and NFKC checks, quoted
path that is empty or slash-initial, hash-free query, no fragment), the
embedded `urlsplit` inverts the embedded `urlunsplit`. -/
theorem urlsplit_roundtrip (s n sp q : PyStr)
    (hs0 : s ≠ []) (hsall : s.all isSchemeChar = true)
    (hshead : isAsciiAlpha (s.headD 0) = true)
    (hslow : pyLower s = s)
    (hn0 : n ≠ [])
    (hn : ∀ c ∈ n, (c != 0x2F && c != 0x3F && c != 0x23) = true ∧
       c ≠ 9 ∧ c ≠ 10 ∧ c ≠ 13)
    (hnchk : netlocChecks n = Except.ok ())
    (hnnf : checknetlocOk n = true)
    (hsp5 : ∀ c ∈ sp, c ≠ 0x23 ∧ c ≠ 0x3F ∧ c ≠ 9 ∧ c ≠ 10 ∧ c ≠ 13)
    (hsp0 : sp = [] ∨ sp.headD 0 = 0x2F)
    (hq : ∀ c ∈ q, c ≠ 0x23 ∧ c ≠ 9 ∧ c ≠ 10 ∧ c ≠ 13) :
    urlsplitPy (urlunsplitPy s n sp q []) = Except.ok ⟨s, n, sp, q, []⟩ := by
  rw [urlunsplit_explicit s n sp q hs0 hn0 hsp0]
  have hPrep : urlPrep (s ++ 0x3A :: 0x2F :: 0x2F ::
      (n ++ (sp ++ (if q = [] then [] else 0x3F :: q)))) =
      s ++ 0x3A :: 0x2F :: 0x2F ::
        (n ++ (sp ++ (if q = [] then [] else 0x3F :: q))) := by
    apply urlPrep_eq_self
    · intro c hc
      rcases List.mem_append.mp hc with h | h
      · have hprops := isSchemeChar_props (List.all_eq_true.mp hsall c h)
        exact ⟨hprops.2.1, hprops.2.2.1, hprops.2.2.2.1⟩
      · rcases List.mem_cons.mp h with h | h
        · omega
        · rcases List.mem_cons.mp h with h | h
          · omega
          · rcases List.mem_cons.mp h with h | h
            · omega
            · rcases List.mem_append.mp h with h | h
              · have h4 := hn c h
                exact ⟨h4.2.1, h4.2.2.1, h4.2.2.2⟩
              · rcases List.mem_append.mp h with h | h
                · have h5 := hsp5 c h
                  exact ⟨h5.2.2.1, h5.2.2.2.1, h5.2.2.2.2⟩
                · by_cases hq0 : q = []
                  · rw [if_pos hq0] at h
                    exact absurd h (List.not_mem_nil c)
                  · rw [if_neg hq0] at h
                    rcases List.mem_cons.mp h with h | h
                    · omega
                    · have h4 := hq c h
                      exact ⟨h4.2.1, h4.2.2.1, h4.2.2.2⟩
    · right
      obtain ⟨a, t, rfl⟩ : ∃ a t, s = a :: t := by
        cases s with
        | nil => exact absurd rfl hs0
        | cons a t => exact ⟨a, t, rfl⟩
      have hrange : 0x41 ≤ a ∧ a ≤ 0x7A := isAsciiAlpha_range hshead
      show ¬ a ≤ 0x20
      omega
  have hSS : splitScheme (s ++ 0x3A :: 0x2F :: 0x2F ::
      (n ++ (sp ++ (if q = [] then [] else 0x3F :: q)))) =
      (s, 0x2F :: 0x2F :: (n ++ (sp ++ (if q = [] then [] else 0x3F :: q)))) :=
    splitScheme_prefix s _ hs0 hsall hshead hslow
  have hSA : splitAuthority (0x2F :: 0x2F ::
      (n ++ (sp ++ (if q = [] then [] else 0x3F :: q)))) =
      Except.ok (n, sp ++ (if q = [] then [] else 0x3F :: q)) := by
    apply splitAuthority_roundtrip n _ (fun c hc => (hn c hc).1) ?_ hnchk
    rcases hsp0 with h | h
    · subst h
      rw [List.nil_append]
      by_cases hq0 : q = []
      · rw [if_pos hq0]
        exact Or.inl rfl
      · rw [if_neg hq0]
        exact Or.inr (Or.inr rfl)
    · cases sp with
      | nil => exact absurd h (by decide)
      | cons a t =>
        right
        left
        exact h
  have hFQ : splitFragmentQuery (sp ++ (if q = [] then [] else 0x3F :: q)) =
      (sp, q, []) :=
    splitFragmentQuery_roundtrip sp q
      (fun c hc => ⟨(hsp5 c hc).1, (hsp5 c hc).2.1⟩) (fun c hc => (hq c hc).1)
  unfold urlsplitPy
  simp only [hPrep, hSS]
  rw [hSA, exceptBind_ok]
  simp only [hFQ, hnnf]
  simp

/-! ## C4 support: strict UTF-8 encodability

`quote` raises on an unpaired surrogate; the lemmas below show that the
percent-decoder can only produce encodable code points (the replacement
decoder emits scalar values) or echo code points of its input, so the
output of one `quote(unquote(...))` pass is always encodable again and the
second pass of `normalize_url` cannot hit the `UnicodeEncodeError`. -/

theorem utf8Grab_bound : ∀ (n cp lo hi : Nat) (l : List Nat) (c : Nat) (r : List Nat),
    utf8Grab n cp lo hi l = (some c, r) →
    cp * 64 ^ n ≤ c ∧ c < (cp + 1) * 64 ^ n := by
  intro n
  induction n with
  | zero =>
    intro cp lo hi l c r h
    have h1 : (some cp, l) = ((some c, r) : Option Nat × List Nat) := h
    injection h1 with h2 h3
    obtain rfl := Option.some.inj h2
    simp
  | succ n ih =>
    intro cp lo hi l c r h
    cases l with
    | nil =>
      have h1 : ((none, []) : Option Nat × List Nat) = (some c, r) := h
      injection h1 with h2 h3
      exact Option.noConfusion h2
    | cons b rest =>
      have h1 : (if lo ≤ b ∧ b ≤ hi then utf8Grab n (cp * 64 + b % 64) 0x80 0xBF rest
          else (none, b :: rest)) = (some c, r) := h
      by_cases hb : lo ≤ b ∧ b ≤ hi
      · rw [if_pos hb] at h1
        obtain ⟨hlow, hhigh⟩ := ih (cp * 64 + b % 64) 0x80 0xBF rest c r h1
        have hm : b % 64 < 64 := Nat.mod_lt _ (by omega)
        constructor
        · calc cp * 64 ^ (n + 1) = cp * 64 * 64 ^ n := by ring
            _ ≤ (cp * 64 + b % 64) * 64 ^ n := Nat.mul_le_mul (by omega) (Nat.le_refl _)
            _ ≤ c := hlow
        · calc c < (cp * 64 + b % 64 + 1) * 64 ^ n := hhigh
            _ ≤ (cp + 1) * 64 * 64 ^ n := Nat.mul_le_mul (by omega) (Nat.le_refl _)
            _ = (cp + 1) * 64 ^ (n + 1) := by ring
      · rw [if_neg hb] at h1
        injection h1 with h2 h3
        exact Option.noConfusion h2

theorem utf8Grab_cons_inv (n cp lo hi : Nat) (l : List Nat) (c : Nat) (r : List Nat)
    (h : utf8Grab (n + 1) cp lo hi l = (some c, r)) :
    ∃ b rest, l = b :: rest ∧ lo ≤ b ∧ b ≤ hi ∧
      utf8Grab n (cp * 64 + b % 64) 0x80 0xBF rest = (some c, r) := by
  cases l with
  | nil =>
    have h1 : ((none, []) : Option Nat × List Nat) = (some c, r) := h
    injection h1 with h2 h3
    exact Option.noConfusion h2
  | cons b rest =>
    have h1 : (if lo ≤ b ∧ b ≤ hi then utf8Grab n (cp * 64 + b % 64) 0x80 0xBF rest
        else (none, b :: rest)) = (some c, r) := h
    by_cases hb : lo ≤ b ∧ b ≤ hi
    · rw [if_pos hb] at h1
      exact ⟨b, rest, rfl, hb.1, hb.2, h1⟩
    · rw [if_neg hb] at h1
      injection h1 with h2 h3
      exact Option.noConfusion h2

theorem utf8DecodeReplaceGo_encodable :
    ∀ (fuel : Nat) (s : List Nat), ∀ c ∈ utf8DecodeReplaceGo fuel s,
      utf8Encodable c = true := by
  intro fuel
  induction fuel with
  | zero =>
    intro s c hc
    exact absurd hc (List.not_mem_nil c)
  | succ fuel ih =>
    intro s
    cases s with
    | nil =>
      intro c hc
      exact absurd hc (List.not_mem_nil c)
    | cons b rest =>
      intro c hc
      have he : utf8DecodeReplaceGo (fuel + 1) (b :: rest) =
          if b < 0x80 then b :: utf8DecodeReplaceGo fuel rest
          else
            match utf8Lead b with
            | none => 0xFFFD :: utf8DecodeReplaceGo fuel rest
            | some (n, cp, lo, hi) =>
              (match (utf8Grab n cp lo hi rest).1 with
               | some c0 => c0
               | none => 0xFFFD) ::
                utf8DecodeReplaceGo fuel (utf8Grab n cp lo hi rest).2 := rfl
      rw [he] at hc
      by_cases hb : b < 0x80
      · rw [if_pos hb] at hc
        rcases List.mem_cons.mp hc with h | h
        · subst h
          unfold utf8Encodable
          simp only [decide_eq_true_iff]
          omega
        · exact ih rest c h
      · rw [if_neg hb] at hc
        cases hlead : utf8Lead b with
        | none =>
          rw [hlead] at hc
          rcases List.mem_cons.mp hc with h | h
          · subst h
            decide
          · exact ih rest c h
        | some t =>
          obtain ⟨n, cp, lo, hi⟩ := t
          rw [hlead] at hc
          rcases List.mem_cons.mp hc with h | h
          · subst h
            rcases hgr : utf8Grab n cp lo hi rest with ⟨o, r2⟩
            cases o with
            | none =>
              show utf8Encodable 0xFFFD = true
              decide
            | some c0 =>
              show utf8Encodable c0 = true
              have hg1 : utf8Grab n cp lo hi rest = (some c0, r2) := hgr
              unfold utf8Encodable
              simp only [decide_eq_true_iff]
              unfold utf8Lead at hlead
              split_ifs at hlead with h1 h2 h3 h4 h5 h6 h7
              · obtain ⟨e1, e2⟩ := Prod.mk.inj (Option.some.inj hlead)
                obtain ⟨e3, e4⟩ := Prod.mk.inj e2
                obtain ⟨e5, e6⟩ := Prod.mk.inj e4
                subst e1; subst e3; subst e5; subst e6
                have hb2 := utf8Grab_bound 1 (b % 32) 0x80 0xBF rest c0 r2 hg1
                simp only [pow_succ, pow_zero, one_mul] at hb2
                omega
              · obtain ⟨e1, e2⟩ := Prod.mk.inj (Option.some.inj hlead)
                obtain ⟨e3, e4⟩ := Prod.mk.inj e2
                obtain ⟨e5, e6⟩ := Prod.mk.inj e4
                subst e1; subst e3; subst e5; subst e6
                have hb2 := utf8Grab_bound 2 (b % 16) 0xA0 0xBF rest c0 r2 hg1
                simp only [pow_succ, pow_zero, one_mul] at hb2
                omega
              · obtain ⟨e1, e2⟩ := Prod.mk.inj (Option.some.inj hlead)
                obtain ⟨e3, e4⟩ := Prod.mk.inj e2
                obtain ⟨e5, e6⟩ := Prod.mk.inj e4
                subst e1; subst e3; subst e5; subst e6
                obtain ⟨b1, rest1, heq, hlo1, hhi1, hg2⟩ :=
                  utf8Grab_cons_inv 1 (b % 16) 0x80 0x9F rest c0 r2 hg1
                have hb2 := utf8Grab_bound 1 (b % 16 * 64 + b1 % 64) 0x80 0xBF rest1 c0 r2 hg2
                simp only [pow_succ, pow_zero, one_mul] at hb2
                omega
              · obtain ⟨e1, e2⟩ := Prod.mk.inj (Option.some.inj hlead)
                obtain ⟨e3, e4⟩ := Prod.mk.inj e2
                obtain ⟨e5, e6⟩ := Prod.mk.inj e4
                subst e1; subst e3; subst e5; subst e6
                have hb2 := utf8Grab_bound 2 (b % 16) 0x80 0xBF rest c0 r2 hg1
                simp only [pow_succ, pow_zero, one_mul] at hb2
                omega
              · obtain ⟨e1, e2⟩ := Prod.mk.inj (Option.some.inj hlead)
                obtain ⟨e3, e4⟩ := Prod.mk.inj e2
                obtain ⟨e5, e6⟩ := Prod.mk.inj e4
                subst e1; subst e3; subst e5; subst e6
                obtain ⟨b1, rest1, heq, hlo1, hhi1, hg2⟩ :=
                  utf8Grab_cons_inv 2 (b % 8) 0x90 0xBF rest c0 r2 hg1
                have hb2 := utf8Grab_bound 2 (b % 8 * 64 + b1 % 64) 0x80 0xBF rest1 c0 r2 hg2
                simp only [pow_succ, pow_zero, one_mul] at hb2
                omega
              · obtain ⟨e1, e2⟩ := Prod.mk.inj (Option.some.inj hlead)
                obtain ⟨e3, e4⟩ := Prod.mk.inj e2
                obtain ⟨e5, e6⟩ := Prod.mk.inj e4
                subst e1; subst e3; subst e5; subst e6
                obtain ⟨b1, rest1, heq, hlo1, hhi1, hg2⟩ :=
                  utf8Grab_cons_inv 2 (b % 8) 0x80 0x8F rest c0 r2 hg1
                have hb2 := utf8Grab_bound 2 (b % 8 * 64 + b1 % 64) 0x80 0xBF rest1 c0 r2 hg2
                simp only [pow_succ, pow_zero, one_mul] at hb2
                omega
              · obtain ⟨e1, e2⟩ := Prod.mk.inj (Option.some.inj hlead)
                obtain ⟨e3, e4⟩ := Prod.mk.inj e2
                obtain ⟨e5, e6⟩ := Prod.mk.inj e4
                subst e1; subst e3; subst e5; subst e6
                obtain ⟨b1, rest1, heq, hlo1, hhi1, hg2⟩ :=
                  utf8Grab_cons_inv 2 (b % 8) 0x80 0xBF rest c0 r2 hg1
                have hb2 := utf8Grab_bound 2 (b % 8 * 64 + b1 % 64) 0x80 0xBF rest1 c0 r2 hg2
                simp only [pow_succ, pow_zero, one_mul] at hb2
                omega
          · exact ih _ c h

theorem utf8DecodeReplace_encodable (s : List Nat) :
    ∀ c ∈ utf8DecodeReplace s, utf8Encodable c = true :=
  utf8DecodeReplaceGo_encodable (s.length + 1) s

theorem unquoteCoreGo_encodable_or_mem :
    ∀ (fuel : Nat) (s : PyStr), ∀ c ∈ unquoteCoreGo fuel s,
      utf8Encodable c = true ∨ c ∈ s := by
  intro fuel
  induction fuel with
  | zero =>
    intro s c hc
    exact absurd hc (List.not_mem_nil c)
  | succ fuel ih =>
    intro s
    cases s with
    | nil =>
      intro c hc
      exact absurd hc (List.not_mem_nil c)
    | cons b rest =>
      intro c hc
      have he : unquoteCoreGo (fuel + 1) (b :: rest) =
          if b < 0x80 then
            utf8DecodeReplace
                (unquoteToBytes ((b :: rest).takeWhile (fun x => decide (x < 0x80)))) ++
              unquoteCoreGo fuel ((b :: rest).dropWhile (fun x => decide (x < 0x80)))
          else b :: unquoteCoreGo fuel rest := rfl
      rw [he] at hc
      by_cases hb : b < 0x80
      · rw [if_pos hb] at hc
        rcases List.mem_append.mp hc with h | h
        · exact Or.inl (utf8DecodeReplace_encodable _ c h)
        · rcases ih _ c h with h2 | h2
          · exact Or.inl h2
          · exact Or.inr (mem_of_mem_dropWhileP h2)
      · rw [if_neg hb] at hc
        rcases List.mem_cons.mp hc with h | h
        · subst h
          exact Or.inr (List.mem_cons_self _ _)
        · rcases ih rest c h with h2 | h2
          · exact Or.inl h2
          · exact Or.inr (List.mem_cons_of_mem _ h2)

theorem pyUnquote_encodable_or_mem (s : PyStr) :
    ∀ c ∈ pyUnquote s, utf8Encodable c = true ∨ c ∈ s := by
  intro c hc
  unfold pyUnquote at hc
  split at hc
  · exact unquoteCoreGo_encodable_or_mem (s.length + 1) s c hc
  · exact Or.inr hc

theorem utf8Encode_byte_bound {c : Nat} (h : utf8Encodable c = true) :
    ∀ b ∈ utf8Encode c, b < 0xF5 := by
  intro b hb
  unfold utf8Encodable at h
  simp only [decide_eq_true_iff] at h
  unfold utf8Encode at hb
  split_ifs at hb with h1 h2 h3
  · rw [List.mem_singleton] at hb
    omega
  · simp only [List.mem_cons, List.not_mem_nil, or_false] at hb
    rcases hb with rfl | rfl <;> omega
  · simp only [List.mem_cons, List.not_mem_nil, or_false] at hb
    rcases hb with rfl | rfl | rfl <;> omega
  · simp only [List.mem_cons, List.not_mem_nil, or_false] at hb
    rcases hb with rfl | rfl | rfl | rfl <;> omega

theorem pyQuote_ascii {s : PyStr} (h : s.all utf8Encodable = true) :
    ∀ d ∈ pyQuote s, d < 0x80 := by
  intro d hd
  unfold pyQuote at hd
  rw [List.mem_flatten] at hd
  obtain ⟨l, hl, hdl⟩ := hd
  rw [List.mem_map] at hl
  obtain ⟨b, hb, rfl⟩ := hl
  rw [List.mem_flatten] at hb
  obtain ⟨lb, hlb, hblb⟩ := hb
  rw [List.mem_map] at hlb
  obtain ⟨ch, hch, rfl⟩ := hlb
  have hbb : b < 0xF5 :=
    utf8Encode_byte_bound (List.all_eq_true.mp h ch hch) b hblb
  by_cases hs : isQuoteSafeByte b = true
  · rw [if_pos hs] at hdl
    rw [List.mem_singleton] at hdl
    subst hdl
    simp only [isQuoteSafeByte, isAsciiAlpha, isAsciiUpper, isAsciiLower, isAsciiDigit,
      Bool.or_eq_true, decide_eq_true_iff, beq_iff_eq] at hs
    omega
  · rw [if_neg hs] at hdl
    simp only [List.mem_cons, List.not_mem_nil, or_false] at hdl
    rcases hdl with rfl | rfl | rfl
    · omega
    · unfold hexUp
      split_ifs <;> omega
    · unfold hexUp
      split_ifs <;> omega

theorem pyUnquote_pyQuote_encodable {s : PyStr} (h : s.all utf8Encodable = true) :
    (pyUnquote (pyQuote s)).all utf8Encodable = true := by
  rw [List.all_eq_true]
  intro c hc
  rcases pyUnquote_encodable_or_mem (pyQuote s) c hc with h2 | h2
  · exact h2
  · have h3 := pyQuote_ascii h c h2
    unfold utf8Encodable
    simp only [decide_eq_true_iff]
    omega

/-! ## C4 -/

/-- C4 (amended): `normalize_url` is not idempotent in general — each pass
strips one layer of percent-encoding from the path (see the
counterexample) and re-strips outer whitespace — but a second pass is the
identity on stable first-pass outputs: whenever the first parse found a
nonempty netloc, the re-encoded path is empty or slash-initial and is
unchanged by one more unquote/quote round, and the produced URL carries no
outer whitespace, re-normalizing returns the same string. -/
theorem c4_idempotent_on_stable_outputs (u v : PyStr) (p : SplitResult)
    (hu : u ≠ [])
    (hp : urlsplitPy (pyStrip u) = Except.ok p)
    (hv : normalize_url u = Except.ok v)
    (hnet : p.netloc ≠ [])
    (hsp0 : pyQuote (pyUnquote p.path) = [] ∨
      (pyQuote (pyUnquote p.path)).headD 0 = 0x2F)
    (hstable : pyQuote (pyUnquote (pyQuote (pyUnquote p.path))) =
      pyQuote (pyUnquote p.path))
    (hws : pyStrip v = v) :
    normalize_url v = Except.ok v := by
  unfold normalize_url at hv
  rw [if_neg hu, hp] at hv
  simp only [exceptBind_ok] at hv
  rw [if_neg hnet, if_neg hnet] at hv
  cases hq : pyQuoteStrict (pyUnquote p.path) with
  | error e =>
    rw [hq, exceptBind_error] at hv
    exact absurd hv (by simp)
  | ok sp0 =>
  rw [hq] at hv
  simp only [exceptBind_ok] at hv
  have hq2 := hq
  unfold pyQuoteStrict at hq2
  split at hq2
  case isFalse => exact absurd hq2 (by simp)
  case isTrue henc =>
  obtain rfl := Except.ok.inj hq2
  have hveq : urlunsplitPy (if p.scheme = [] then pyStr "https" else p.scheme)
      p.netloc (pyQuote (pyUnquote p.path)) p.query [] = v := Except.ok.inj hv
  obtain ⟨hsch, hnl, hnf, hchk, hqf⟩ := urlsplitPy_ok_components _ p hp
  have hS : (if p.scheme = [] then pyStr "https" else p.scheme) ≠ [] ∧
      (if p.scheme = [] then pyStr "https" else p.scheme).all isSchemeChar = true ∧
      isAsciiAlpha
        ((if p.scheme = [] then pyStr "https" else p.scheme).headD 0) = true ∧
      pyLower (if p.scheme = [] then pyStr "https" else p.scheme) =
        (if p.scheme = [] then pyStr "https" else p.scheme) := by
    by_cases h0 : p.scheme = []
    · rw [if_pos h0]
      exact ⟨by decide, by decide, by decide, by decide⟩
    · rw [if_neg h0]
      rcases hsch with h | h
      · exact absurd h h0
      · exact ⟨h.1, h.2.1, h.2.2.1, h.2.2.2⟩
  have hrt := urlsplit_roundtrip
    (if p.scheme = [] then pyStr "https" else p.scheme)
    p.netloc (pyQuote (pyUnquote p.path)) p.query
    hS.1 hS.2.1 hS.2.2.1 hS.2.2.2 hnet hnl hchk hnf
    (pyQuote_no_specials (pyUnquote p.path)) hsp0 hqf
  rw [hveq] at hrt
  have hv0 : v ≠ [] := by
    rw [← hveq, urlunsplit_explicit _ _ _ _ hS.1 hnet hsp0]
    simp
  unfold normalize_url
  rw [if_neg hv0, hws, hrt]
  simp only [exceptBind_ok]
  rw [if_neg hS.1, if_neg hnet, if_neg hnet]
  have henc2 : (pyUnquote (pyQuote (pyUnquote p.path))).all utf8Encodable = true :=
    pyUnquote_pyQuote_encodable henc
  rw [show pyQuoteStrict (pyUnquote (pyQuote (pyUnquote p.path))) =
      Except.ok (pyQuote (pyUnquote (pyQuote (pyUnquote p.path)))) from by
    unfold pyQuoteStrict
    rw [if_pos henc2]]
  simp only [exceptBind_ok]
  rw [hstable, hveq]
  rfl

set_option maxRecDepth 100000 in
/-- Counterexample for C4 as stated: `normalize_url` strips one layer of
percent-encoding from the path per pass, so the doubly-encoded path
`%252f` normalizes to `%2f`, which a second pass decodes further to `//`:
the composition differs from a single pass. -/
theorem c4_counterexample :
    normalize_url (pyStr "http://x/%252f") = Except.ok (pyStr "http://x/%2f") ∧
    normalize_url (pyStr "http://x/%2f") = Except.ok (pyStr "http://x//") ∧
    (pyStr "http://x/%2f" : PyStr) ≠ pyStr "http://x//" :=
  ⟨rfl, rfl, by decide⟩

set_option maxRecDepth 100000 in
/-- Witness for C4 on a stable input: one more pass over an already
normalized simple URL returns it unchanged. -/
theorem c4_witness :
    normalize_url (pyStr "https://example.com/path") =
      Except.ok (pyStr "https://example.com/path") :=
  c4_idempotent_on_stable_outputs (pyStr "https://example.com/path")
    (pyStr "https://example.com/path")
    ⟨pyStr "https", pyStr "example.com", pyStr "/path", [], []⟩
    (by decide) rfl rfl (by decide) (Or.inr rfl) rfl rfl

/-! ## C3 -/

/-- The brand loop emits the whole-string warning for `b` exactly when `b`
is the first brand the loop does not skip and whose whole-string ratio
lies strictly between 0.82 and 1. -/
theorem spoofLoop_whole_iff (ud dsk b : PyStr) :
    ∀ l : List PyStr,
      spoofLoop ud dsk l = some (Warning.brandWhole ud b) ↔
        (l.find? (spoofHit ud dsk) = some b ∧ endsWithPy ud b = false ∧
         mkRat 41 50 < pyRatio ud b ∧ pyRatio ud b < 1) := by
  intro l
  induction l with
  | nil => simp [spoofLoop]
  | cons br rest ih =>
    unfold spoofLoop
    by_cases hend : endsWithPy ud br = true
    · have hhit : spoofHit ud dsk br = false := by simp [spoofHit, hend]
      rw [if_pos hend, List.find?_cons_of_neg _ (by simp [hhit])]
      exact ih
    · rw [if_neg hend]
      have hend' : endsWithPy ud br = false := Bool.not_eq_true _ ▸ hend
      by_cases hr : mkRat 41 50 < pyRatio ud br ∧ pyRatio ud br < 1
      · rw [if_pos hr]
        have hhit : spoofHit ud dsk br = true := by
          simp [spoofHit, hend', decide_eq_true_iff.mpr hr]
        rw [List.find?_cons_of_pos _ hhit]
        constructor
        · intro h
          have hb := (Warning.brandWhole.inj (Option.some.inj h)).2
          subst hb
          exact ⟨rfl, hend', hr.1, hr.2⟩
        · rintro ⟨hfind, -, -, -⟩
          have hb := Option.some.inj hfind
          subst hb
          rfl
      · rw [if_neg hr]
        by_cases hf : _contains_brand_fragment dsk ((splitFirst 0x2E br).1) = true
        · rw [if_pos hf]
          have hhit : spoofHit ud dsk br = true := by simp [spoofHit, hend', hf]
          rw [List.find?_cons_of_pos _ hhit]
          constructor
          · intro h
            exact absurd (Option.some.inj h) (by simp)
          · rintro ⟨hfind, -, hr1, hr2⟩
            have hb := Option.some.inj hfind
            subst hb
            exact absurd ⟨hr1, hr2⟩ hr
        · rw [if_neg hf]
          have hhit : spoofHit ud dsk br = false := by
            simp only [spoofHit, hend', Bool.not_false, Bool.true_and]
            rw [Bool.or_eq_false_iff]
            exact ⟨decide_eq_false hr, Bool.not_eq_true _ ▸ hf⟩
          rw [List.find?_cons_of_neg _ (by simp [hhit])]
          exact ih

/-- C3: `_check_domain_spoof` produces at most one brand warning; a domain
whose decoded form ends with a registered brand is never given that
brand's whole-string warning; and the whole-string warning for `b` appears
exactly when `b` is the first qualifying brand (in registry order, fragment
hits included in qualifying) and the Ratcliff/Obershelp ratio between the
decoded domain and `b` lies strictly between 0.82 and 1. -/
theorem c3_brand_similarity_loop (domain : PyStr) :
    ((_check_domain_spoof domain).countP isBrandWarning ≤ 1) ∧
    (∀ b, endsWithPy (to_unicode_domain domain) b = true →
       Warning.brandWhole (to_unicode_domain domain) b ∉ _check_domain_spoof domain) ∧
    (∀ b, Warning.brandWhole (to_unicode_domain domain) b ∈ _check_domain_spoof domain ↔
       (KNOWN_BRANDS.find? (spoofHit (to_unicode_domain domain)
           (ascii_skeleton (to_unicode_domain domain))) = some b ∧
        endsWithPy (to_unicode_domain domain) b = false ∧
        mkRat 41 50 < pyRatio (to_unicode_domain domain) b ∧
        pyRatio (to_unicode_domain domain) b < 1)) := by
  have hmem : ∀ b,
      (Warning.brandWhole (to_unicode_domain domain) b ∈ _check_domain_spoof domain ↔
        spoofLoop (to_unicode_domain domain)
          (ascii_skeleton (to_unicode_domain domain)) KNOWN_BRANDS =
          some (Warning.brandWhole (to_unicode_domain domain) b)) := by
    intro b
    unfold _check_domain_spoof
    rw [List.mem_append]
    constructor
    · rintro (h | h)
      · cases hsl : spoofLoop (to_unicode_domain domain)
            (ascii_skeleton (to_unicode_domain domain)) KNOWN_BRANDS with
        | none => rw [hsl] at h; simp at h
        | some w =>
          rw [hsl] at h
          simp at h
          subst h
          rfl
      · exfalso
        revert h
        split <;> simp
    · intro h
      left
      rw [h]
      simp
  refine ⟨?_, ?_, fun b => (hmem b).trans (spoofLoop_whole_iff _ _ b KNOWN_BRANDS)⟩
  · unfold _check_domain_spoof
    rw [List.countP_append]
    have h2 : (if contains_punycode domain || has_suspicious_unicode domain
        then [Warning.punycodeUnicode] else []).countP isBrandWarning = 0 := by
      split <;> rfl
    rw [h2]
    cases spoofLoop (to_unicode_domain domain)
        (ascii_skeleton (to_unicode_domain domain)) KNOWN_BRANDS with
    | none => simp
    | some w => simp [List.countP_cons]; split <;> simp
  · intro b hends hmemb
    have h3 := ((hmem b).trans (spoofLoop_whole_iff _ _ b KNOWN_BRANDS)).mp hmemb
    rw [hends] at h3
    exact Bool.true_eq_false ▸ h3.2.1

set_option maxRecDepth 100000 in
/-- Witness for C3: `paypa1.com` receives the whole-string warning for
`paypal.com` (its first qualifying brand, ratio 0.9), while a domain
legitimately ending in `kaspibank.kz` is not flagged for that brand. -/
theorem c3_witness :
    Warning.brandWhole (pyStr "paypa1.com") (pyStr "paypal.com") ∈
      _check_domain_spoof (pyStr "paypa1.com") ∧
    Warning.brandWhole (pyStr "shop.kaspibank.kz") (pyStr "kaspibank.kz") ∉
      _check_domain_spoof (pyStr "shop.kaspibank.kz") :=
  ⟨((c3_brand_similarity_loop (pyStr "paypa1.com")).2.2 (pyStr "paypal.com")).mpr
      ⟨by rfl, by rfl, by decide, by decide⟩,
   (c3_brand_similarity_loop (pyStr "shop.kaspibank.kz")).2.1 (pyStr "kaspibank.kz")
      (by rfl)⟩

/-! ## C8 -/

/-- The specification lists the ASCII look-alike table with the same pairs
the source dict holds. -/
theorem ascii_tables_eq : asciiConfusablePairs = asciiConfusableTable := by decide

/-- Looking a character up in the generated table (lower-case keys plus
generated upper-case duplicates) agrees with a case-insensitive search of
the base tables. -/
theorem find_confusable_gen_eq (c : Nat) :
    ∀ L : List (Nat × PyStr),
      ((L.flatMap (fun p =>
          if pyUpper1 p.1 ≠ p.1 then [p, (pyUpper1 p.1, p.2)] else [p])).find?
            (fun p => p.1 == c)).map (fun p => p.2) =
      ((L.find? (fun p => p.1 == c || pyUpper1 p.1 == c)).map (fun p => p.2)) := by
  intro L
  induction L with
  | nil => rfl
  | cons p rest ih =>
    rw [List.flatMap_cons]
    by_cases hu : pyUpper1 p.1 ≠ p.1
    · rw [if_pos hu]
      by_cases h1 : p.1 = c
      · rw [List.cons_append, List.find?_cons_of_pos _ (by simp [h1]),
            List.find?_cons_of_pos _ (by simp [h1])]
      · by_cases h2 : pyUpper1 p.1 = c
        · rw [List.cons_append, List.find?_cons_of_neg _ (by simp [h1]),
              List.cons_append, List.nil_append,
              List.find?_cons_of_pos _ (by simp [h2]),
              List.find?_cons_of_pos _ (by simp [h1, h2])]
          rfl
        · rw [List.cons_append, List.find?_cons_of_neg _ (by simp [h1]),
              List.cons_append, List.nil_append,
              List.find?_cons_of_neg _ (by simp [h2]),
              List.find?_cons_of_neg _ (by simp [h1, h2])]
          exact ih
    · rw [if_neg hu]
      have hu' : pyUpper1 p.1 = p.1 := not_ne_iff.mp hu
      by_cases h1 : p.1 = c
      · rw [List.cons_append, List.nil_append,
            List.find?_cons_of_pos _ (by simp [h1]),
            List.find?_cons_of_pos _ (by simp [h1])]
      · rw [List.cons_append, List.nil_append,
            List.find?_cons_of_neg _ (by simp [h1]),
            List.find?_cons_of_neg _ (by simp [h1, hu'])]
        exact ih

/-- The source per-character rule coincides with the specification's
per-character rule. -/
theorem skeletonChar_eq_spec (c : Nat) : skeletonChar c = skeletonCharSpec c := by
  unfold skeletonChar skeletonCharSpec asciiConfusable? lookupConf
    unicodeConfusables specLookupCaseInsensitive
  rw [ascii_tables_eq, find_confusable_gen_eq c (cyrToLatin ++ greekToLatin)]

/-- C8: `ascii_skeleton` processes the punycode-decoded, NFKC-normalized
input character by character exactly as the specification describes
(ASCII look-alike table, ASCII lower-casing, case-insensitive
Cyrillic/Greek transliteration with empty mappings dropped, NFKD ASCII
remainder otherwise), and in particular maps `аpple.com` (leading Cyrillic
а) to `apple.com`. -/
theorem c8_skeleton_per_character (value : PyStr) :
    ascii_skeleton value =
      (nfkcModel (to_unicode_domain value)).flatMap skeletonCharSpec ∧
    ascii_skeleton (pyStr "аpple.com") = pyStr "apple.com" := by
  constructor
  · unfold ascii_skeleton
    rw [funext skeletonChar_eq_spec]
    by_cases hv : value = []
    · subst hv; rfl
    · rw [if_neg hv]
  · rfl

/-- Witness for C2, applying it to the report of the empty URL. -/
theorem c2_witness :
    ((SecurityReport.mk false [Warning.nonHttps] Risk.medium).safe = true ↔
      (SecurityReport.mk false [Warning.nonHttps] Risk.medium).warnings = []) ∧
    (SecurityReport.mk false [Warning.nonHttps] Risk.medium).risk_level =
      (if (SecurityReport.mk false [Warning.nonHttps] Risk.medium).warnings.length = 0
       then Risk.low
       else if (SecurityReport.mk false [Warning.nonHttps] Risk.medium).warnings.length ≤ 2
       then Risk.medium else Risk.high) :=
  c2_risk_pure_function_of_count (pyStr "")
    (SecurityReport.mk false [Warning.nonHttps] Risk.medium) rfl

end SafeQR
